import Mathlib

/-!
Shallow embedding of the knowledge-freshness and response-caching engine of the
`ia-eccomerce-assistant` repository, together with proofs about its behaviour.

The embedding covers:
* `ia_assistant/analysis/impact_analyzer.py` — dependency graph, affected-file
  computation, impact scoring, history;
* `ia_assistant/monitoring/change_detector.py` — file hashing, change
  classification, ignore patterns, structure hash;
* `ia_assistant/proactive/suggestion_engine.py` — suggestion dedup/rank/cap;
* the intelligent cache (`ia_assistant/cache/intelligent_cache.py` is not part
  of the source tree; it is modelled from the specification, see the `Cache`
  namespace).

Conventions: machine integers are `Nat`; Python floats that carry exact decimal
constants (dependency strengths, confidences) are `ℚ`; Python dicts are
insertion-ordered association lists; md5 hex digests are abstracted as an
injective string encoding whose failure sentinel is `""`; wall-clock timestamps
(`datetime.now()`) are either omitted or passed explicitly as a `now : Nat`
argument.
-/

namespace IAAssist

/-- Prefix test on character lists: `startsWithL l pat` holds when `l` begins
with `pat`.  Helper for the substring containment below. -/
def startsWithL : List Char → List Char → Bool
  | _, [] => true
  | [], _ :: _ => false
  | a :: as, b :: bs => decide (a = b) && startsWithL as bs

/-- `hasSubList l pat` — `pat` occurs as a contiguous sublist of `l`.
Models Python's `pat in s` substring operator. -/
def hasSubList : List Char → List Char → Bool
  | [], pat => pat.isEmpty
  | a :: as, pat => startsWithL (a :: as) pat || hasSubList as pat

/-- Python's `pat in hay` on strings (plain substring containment). -/
def strContains (hay pat : String) : Bool :=
  hasSubList hay.data pat.data

/-- Python's `s.startswith(pat)` (kernel-computable form). -/
def strStartsWith (s pat : String) : Bool :=
  startsWithL s.data pat.data

/-- Python's `s.endswith(pat)` (kernel-computable form). -/
def strEndsWith (s pat : String) : Bool :=
  startsWithL s.data.reverse pat.data.reverse

/-- Python's `s[n:]` (kernel-computable form of `String.drop`). -/
def strDrop (s : String) (n : Nat) : String :=
  String.mk (s.data.drop n)

/-- Split a character list on a separator (kernel-computable form of
`String.splitOn` for a one-character separator). -/
def splitOnCharL (sep : Char) : List Char → List (List Char)
  | [] => [[]]
  | c :: cs =>
    let r := splitOnCharL sep cs
    if c = sep then [] :: r
    else
      match r with
      | [] => [[c]]
      | h :: t => (c :: h) :: t

/-- `"|".join(parts)` (kernel-computable form of `String.intercalate`). -/
def joinBar : List String → String
  | [] => ""
  | [s] => s
  | s :: rest => s ++ "|" ++ joinBar rest

/-- Python's `str.lower`, restricted to the character-wise lowering that the
code relies on for its ASCII keywords. -/
def lowerStr (s : String) : String :=
  String.mk (s.data.map Char.toLower)

/-- Modelled digest: the code uses `hashlib.md5(...).hexdigest()` only to
compare digests for equality, so the digest is abstracted as an injective
encoding of its input.  It is never the empty string: `""` is the sentinel the
code returns when hashing fails. -/
def md5 (s : String) : String := "#" ++ s

/-- Lookup in an insertion-ordered association list (Python `dict.get`). -/
def lookupA {β : Type} : List (String × β) → String → Option β
  | [], _ => none
  | e :: rest, k => if e.1 = k then some e.2 else lookupA rest k

/-- Update in an insertion-ordered association list (Python `d[k] = v`):
replaces the entry in place, or appends a fresh entry at the end. -/
def setA {β : Type} : List (String × β) → String → β → List (String × β)
  | [], k, v => [(k, v)]
  | e :: rest, k, v => if e.1 = k then (k, v) :: rest else e :: setA rest k v

/-- Deletion from an insertion-ordered association list (Python `del d[k]`). -/
def eraseA {β : Type} : List (String × β) → String → List (String × β)
  | [], _ => []
  | e :: rest, k => if e.1 = k then rest else e :: eraseA rest k

namespace Impact

/-- `DependencyType` enum of `impact_analyzer.py` (values `reference`, `imports`,
`extends`, `implements`, `depends_on`). -/
inductive DependencyType where
  | reference
  | imports
  | extendsConcept
  | implementsConcept
  | dependsOn
deriving DecidableEq

/-- The `.value` string of each `DependencyType` member. -/
def DependencyType.value : DependencyType → String
  | .reference => "reference"
  | .imports => "imports"
  | .extendsConcept => "extends"
  | .implementsConcept => "implements"
  | .dependsOn => "depends_on"

/-- `ImpactLevel` enum of `impact_analyzer.py`. -/
inductive ImpactLevel where
  | low
  | medium
  | high
  | critical
deriving DecidableEq

/-- Severity order on impact levels (Low < Medium < High < Critical). -/
def ImpactLevel.toNat : ImpactLevel → Nat
  | .low => 0
  | .medium => 1
  | .high => 2
  | .critical => 3

/-- The `Dependency` dataclass (nothing of the analysis below depends on the
`lineNumber`, `context` or `strength` payloads, but they are carried
faithfully).  `strength` is the exact decimal the Python float holds. -/
structure Dependency where
  sourceFile : String
  targetFile : String
  depType : DependencyType
  lineNumber : Option Nat
  context : String
  strength : ℚ
deriving DecidableEq

/-- `self.file_dependencies : Dict[str, List[Dependency]]`, an
insertion-ordered dict mapping a source file to the dependencies extracted
from it. -/
def Deps : Type := List (String × List Dependency)

/-- The `ImpactAnalysis` dataclass.  The `timestamp : datetime` field is
omitted (wall-clock time is outside the embedding). -/
structure ImpactAnalysis where
  changedFile : String
  impactLevel : ImpactLevel
  affectedFiles : List String
  dependencies : List Dependency
  estimatedEffort : String
  recommendations : List String
deriving DecidableEq

/-- The mutable state of an `ImpactAnalyzer`: its dependency dict and its
`impact_history` list.  The `nx.DiGraph` is derived from `file_dependencies`
(see `edgesOf`), exactly as `_build_dependency_graph` derives it. -/
structure ImpactState where
  deps : List (String × List Dependency)
  history : List ImpactAnalysis

/-- The edge list of the dependency graph: `_build_dependency_graph` adds the
edge `(file_path, dep.target_file)` for every recorded dependency. -/
def edgesOf (deps : List (String × List Dependency)) : List (String × String) :=
  deps.flatMap (fun e => e.2.map (fun d => (e.1, d.targetFile)))

/-- The node set of the `nx.DiGraph`: `add_edge` inserts both endpoints, and
nodes are only ever created through `add_edge`. -/
def graphNodes (deps : List (String × List Dependency)) : List String :=
  (edgesOf deps).flatMap (fun e => [e.1, e.2])

/-- One saturation pass over the edge list: every edge whose source is already
reached contributes its target. -/
def reachStep (edges : List (String × String)) (r : List String) : List String :=
  edges.foldl (fun acc e => if e.1 ∈ acc then acc.insert e.2 else acc) r

/-- `nx.descendants(G, f) ∪ {f}`: all nodes reachable from `f`, computed by
iterating `reachStep` to a fixed point (`edges.length + 1` passes suffice,
see `reachIter_complete`). -/
def reachSet (edges : List (String × String)) (f : String) : List String :=
  (reachStep edges)^[edges.length + 1] [f]

/-- `_find_affected_files`: when the changed file is a graph node, its
descendants plus the file itself (`reachSet` contains `f` by construction);
then, unconditionally, every file whose recorded dependencies target the
changed file.  The Python function materialises a `set`; the embedding keeps
a duplicate-free list, so only membership (not order) is meaningful. -/
def findAffectedFiles (deps : List (String × List Dependency)) (changedFile : String) :
    List String :=
  let s0 : List String :=
    if changedFile ∈ graphNodes deps then reachSet (edgesOf deps) changedFile else []
  deps.foldl
    (fun acc entry =>
      entry.2.foldl
        (fun acc d => if d.targetFile = changedFile then acc.insert entry.1 else acc)
        acc)
    s0

/-- `os.path.basename` for the forward-slash paths the analyzer handles. -/
def basename (p : String) : String :=
  String.mk ((splitOnCharL '/' p.data).getLastD p.data)

/-- `_get_file_type`. -/
def getFileType (filePath : String) : String :=
  let fileName := lowerStr (basename filePath)
  if strContains fileName "adr" then "adr"
  else if strContains fileName "ddd" || strContains fileName "domain" then "ddd"
  else if strEndsWith fileName ".py" then "code"
  else if strEndsWith fileName ".md" then "documentation"
  else "other"

/-- Affected-file-count contribution to the impact score
(`_calculate_impact_level`, first `if` chain). -/
def affectedBucket (numAffected : Nat) : Nat :=
  if numAffected ≤ 2 then 1
  else if numAffected ≤ 5 then 2
  else if numAffected ≤ 10 then 3
  else 4

/-- File-type contribution (`_calculate_impact_level`, second `if` chain;
Python tests membership in the literal lists `['adr', 'architecture']`,
`['ddd', 'domain']`, `['implementation', 'code']`). -/
def fileTypeBonus (fileType : String) : Nat :=
  if fileType = "adr" ∨ fileType = "architecture" then 3
  else if fileType = "ddd" ∨ fileType = "domain" then 2
  else if fileType = "implementation" ∨ fileType = "code" then 1
  else 0

/-- Direct-dependency-count contribution (`_calculate_impact_level`, third
`if` chain). -/
def depBucket (dependencyCount : Nat) : Nat :=
  if dependencyCount ≤ 2 then 1
  else if dependencyCount ≤ 5 then 2
  else 3

/-- Score-to-level mapping (`_calculate_impact_level`, final `if` chain). -/
def levelOfScore (score : Nat) : ImpactLevel :=
  if score ≤ 3 then .low
  else if score ≤ 5 then .medium
  else if score ≤ 7 then .high
  else .critical

/-- `_calculate_impact_level` (the `except` branch is unreachable in the pure
embedding: every step is total). -/
def calcImpactLevel (deps : List (String × List Dependency)) (changedFile : String)
    (affectedFiles : List String) : ImpactLevel :=
  let numAffected := affectedFiles.length
  let fileType := getFileType changedFile
  let dependencyCount := ((lookupA deps changedFile).getD []).length
  levelOfScore (affectedBucket numAffected + fileTypeBonus fileType + depBucket dependencyCount)

/-- The base-strength table of `_calculate_dependency_strength`
(a dict literal; lookup falls back to `0.5`). -/
def baseStrengths : List (String × ℚ) :=
  [("reference", 3/10), ("imports", 8/10), ("extends", 9/10),
   ("implements", 9/10), ("depends_on", 7/10)]

/-- `_calculate_dependency_strength`: base strength by kind string, scaled by
1.2 on an urgency keyword, by 0.8 on a de-emphasis keyword, clamped to 1.0. -/
def calcDependencyStrength (depType : String) (context : String) : ℚ :=
  let base := (lookupA baseStrengths depType).getD (5/10)
  let ctx := lowerStr context
  let adjusted :=
    if strContains ctx "critical" || strContains ctx "essential" then base * (12/10)
    else if strContains ctx "optional" || strContains ctx "maybe" then base * (8/10)
    else base
  min 1 adjusted

/-- `_get_related_dependencies`: the changed file's own dependencies, then
every recorded dependency that targets it. -/
def relatedDeps (deps : List (String × List Dependency)) (changedFile : String) :
    List Dependency :=
  ((lookupA deps changedFile).getD []) ++
    deps.flatMap (fun e => e.2.filter (fun d => d.targetFile = changedFile))

/-- `_estimate_effort`. -/
def estimateEffort (impactLevel : ImpactLevel) (numAffected : Nat) : String :=
  if impactLevel = .critical then "critical"
  else if impactLevel = .high ∨ 5 < numAffected then "high"
  else if impactLevel = .medium ∨ 2 < numAffected then "medium"
  else "low"

/-- `_generate_recommendations` (the emoji-tagged Portuguese strings are kept
verbatim). -/
def generateRecommendations (impactLevel : ImpactLevel) (affectedFiles : List String) :
    List String :=
  let base :=
    if impactLevel = .critical then
      ["🔴 MUDANÇA CRÍTICA: Revisar todas as dependências antes de prosseguir",
       "📋 Criar plano de migração detalhado",
       "🧪 Executar testes completos em todos os arquivos afetados",
       "👥 Coordenar com toda a equipe antes da implementação"]
    else if impactLevel = .high then
      ["🟡 IMPACTO ALTO: Verificar dependências principais",
       "📝 Documentar mudanças em detalhes",
       "🧪 Testar arquivos mais afetados",
       "👥 Notificar equipe sobre mudanças"]
    else if impactLevel = .medium then
      ["🟢 IMPACTO MÉDIO: Revisar dependências locais",
       "📝 Atualizar documentação relacionada",
       "🧪 Testar funcionalidades afetadas"]
    else
      ["🟢 IMPACTO BAIXO: Mudança localizada",
       "📝 Atualizar documentação se necessário"]
  if 10 < affectedFiles.length then
    base ++ ["⚠️ Muitos arquivos afetados - considere refatoração incremental"]
  else if 5 < affectedFiles.length then
    base ++ ["📋 Criar checklist de arquivos para atualizar"]
  else base

/-- `analyze_impact`: computes the analysis and appends it to
`impact_history`.  Returns the analysis together with the updated state. -/
def analyzeImpact (st : ImpactState) (changedFile : String) :
    ImpactAnalysis × ImpactState :=
  let affectedFiles := findAffectedFiles st.deps changedFile
  let impactLevel := calcImpactLevel st.deps changedFile affectedFiles
  let analysis : ImpactAnalysis :=
    { changedFile := changedFile
      impactLevel := impactLevel
      affectedFiles := affectedFiles
      dependencies := relatedDeps st.deps changedFile
      estimatedEffort := estimateEffort impactLevel affectedFiles.length
      recommendations := generateRecommendations impactLevel affectedFiles }
  (analysis, { st with history := st.history ++ [analysis] })

/-- `get_impact_history(limit=50)` returns `self.impact_history[-limit:]`.
Python's `xs[-0:]` is the whole list, hence the `limit = 0` case. -/
def getImpactHistory (st : ImpactState) (limit : Nat) : List ImpactAnalysis :=
  if limit = 0 then st.history else st.history.drop (st.history.length - limit)

/-- `n` successive `analyze_impact` calls for the same file path. -/
def iterAnalyze (f : String) : Nat → ImpactState → ImpactState
  | 0, st => st
  | n + 1, st => iterAnalyze f n (analyzeImpact st f).2

end Impact

namespace Monitor

/-- The per-cycle observable state of one file on disk, as the detector sees
it through `os.path.exists` / `os.stat` / `open`.  `metaOk = false` models an
`os.stat` that raises (caught by `_calculate_file_hash`); `readOk = false`
models an `open`/`read` that raises (caught by `_calculate_content_hash`).
`st_size` is the byte length of `content`; `mtime`/`ctime` are the remaining
stat fields that feed the metadata hash. -/
structure FileData where
  metaOk : Bool
  readOk : Bool
  mtime : Nat
  ctime : Nat
  content : String
deriving DecidableEq

/-- The filesystem snapshot one detection cycle observes: the files that
exist, in the order `os.walk` discovers them. -/
def FS : Type := List (String × FileData)

/-- `os.path.exists` plus the per-file view. -/
def fsLookup (fs : List (String × FileData)) (p : String) : Option FileData :=
  lookupA fs p

/-- The metadata string `f"{stat.st_size}_{stat.st_mtime}_{stat.st_ctime}"`. -/
def metadataStr (fd : FileData) : String :=
  toString fd.content.length ++ "_" ++ toString fd.mtime ++ "_" ++ toString fd.ctime

/-- `_calculate_file_hash`: md5 of the metadata string, or `""` when `os.stat`
fails (the `except` branch). -/
def fileHash (fd : FileData) : String :=
  if fd.metaOk then md5 (metadataStr fd) else ""

/-- `_calculate_content_hash`: md5 of the byte content, or `""` when reading
fails (the `except` branch). -/
def contentHash (fd : FileData) : String :=
  if fd.readOk then md5 fd.content else ""

/-- `ChangeType` enum of `change_detector.py`. -/
inductive ChangeType where
  | fileAdded
  | fileModified
  | fileDeleted
  | contentChanged
  | structureChanged
deriving DecidableEq

/-- The `ChangeEvent` dataclass (the `timestamp : datetime` field is
omitted; wall-clock time is outside the embedding). -/
structure ChangeEvent where
  changeType : ChangeType
  filePath : String
  oldHash : Option String
  newHash : Option String
  description : String
  impactLevel : String
deriving DecidableEq

/-- The mutable monitoring state of a `KnowledgeBaseMonitor`:
`file_hashes`, `content_hashes` (insertion-ordered dicts) and
`structure_hash`. -/
structure MonitorState where
  fileHashes : List (String × String)
  contentHashes : List (String × String)
  structureHash : String
deriving DecidableEq

/-- `self.ignored_patterns`. -/
def ignoredPatterns : List String :=
  ["*.pyc", "*.pyo", "__pycache__", "*.log", ".git", ".svn", ".DS_Store", "*.tmp"]

/-- `_should_ignore_file`: `*.`-patterns match by suffix (`pattern[1:]`),
every other pattern by plain substring containment in the full path. -/
def shouldIgnoreFile (filePath : String) : Bool :=
  ignoredPatterns.any (fun pat =>
    if strStartsWith pat "*." then strEndsWith filePath (strDrop pat 1)
    else strContains filePath pat)

/-- `_add_file_to_monitoring` for a file that exists: stores both hashes
(hash failures are already absorbed into `fileHash`/`contentHash`). -/
def addFileToMonitoring (st : MonitorState) (p : String) (fd : FileData) : MonitorState :=
  { st with
    fileHashes := setA st.fileHashes p (fileHash fd)
    contentHashes := setA st.contentHashes p (contentHash fd) }

/-- Ascending insertion into a sorted list of strings. -/
def insertSorted (a : String) : List String → List String
  | [] => [a]
  | b :: bs => if a < b then a :: b :: bs else b :: insertSorted a bs

/-- Python's `sorted` on a list of (distinct) path strings. -/
def sortStrings (l : List String) : List String :=
  l.foldr insertSorted []

/-- `_update_structure_hash`: md5 of the `"|"`-joined sorted monitored paths.
(`os.path.relpath` against the first base path is modelled as the identity:
the embedding works with the paths themselves.) -/
def updateStructureHash (st : MonitorState) : MonitorState :=
  { st with
    structureHash :=
      md5 (joinBar (sortStrings (st.fileHashes.map Prod.fst))) }

/-- The first loop of `_detect_file_changes`, iterating over the snapshot
`list(self.file_hashes.keys())` (an entry is processed at most once, so the
value read from the live dict equals the snapshot value). -/
def processTracked (fs : List (String × FileData)) :
    List (String × String) → MonitorState → List ChangeEvent × MonitorState
  | [], st => ([], st)
  | (p, oldh) :: rest, st =>
    match fsLookup fs p with
    | none =>
        let ev : ChangeEvent :=
          { changeType := .fileDeleted, filePath := p, oldHash := some oldh,
            newHash := none, description := "Arquivo deletado: " ++ p,
            impactLevel := "medium" }
        let st' : MonitorState :=
          { st with
            fileHashes := eraseA st.fileHashes p
            contentHashes := eraseA st.contentHashes p }
        let r := processTracked fs rest st'
        (ev :: r.1, r.2)
    | some fd =>
        let newFileHash := fileHash fd
        let newContentHash := contentHash fd
        if newFileHash ≠ oldh then
          let ct : ChangeType :=
            if newContentHash ≠ (lookupA st.contentHashes p).getD "" then
              .contentChanged
            else .fileModified
          let ev : ChangeEvent :=
            { changeType := ct, filePath := p, oldHash := some oldh,
              newHash := some newFileHash,
              description := "Arquivo modificado: " ++ p,
              impactLevel := if ct = .contentChanged then "high" else "medium" }
          let st' : MonitorState :=
            { st with
              fileHashes := setA st.fileHashes p newFileHash
              contentHashes := setA st.contentHashes p newContentHash }
          let r := processTracked fs rest st'
          (ev :: r.1, r.2)
        else
          processTracked fs rest st

/-- The second loop of `_detect_file_changes` (re-walking the roots): every
discovered file that is not ignored and not yet tracked is added to
monitoring and reported as `FILE_ADDED`. -/
def processNew : List (String × FileData) → MonitorState → List ChangeEvent × MonitorState
  | [], st => ([], st)
  | (p, fd) :: rest, st =>
    if shouldIgnoreFile p = false ∧ lookupA st.fileHashes p = none then
      let st' := addFileToMonitoring st p fd
      let ev : ChangeEvent :=
        { changeType := .fileAdded, filePath := p, oldHash := none,
          newHash := some (fileHash fd), description := "Novo arquivo: " ++ p,
          impactLevel := "medium" }
      let r := processNew rest st'
      (ev :: r.1, r.2)
    else
      processNew rest st

/-- `_detect_file_changes`: deletions/modifications over the tracked
snapshot, then newly discovered files, then the structure-hash comparison. -/
def detect (st : MonitorState) (fs : List (String × FileData)) :
    List ChangeEvent × MonitorState :=
  let r1 := processTracked fs st.fileHashes st
  let r2 := processNew fs r1.2
  let st3 := updateStructureHash r2.2
  let structEvents : List ChangeEvent :=
    if st3.structureHash ≠ st.structureHash then
      [{ changeType := .structureChanged, filePath := "",
         oldHash := some st.structureHash, newHash := some st3.structureHash,
         description := "Estrutura de arquivos alterada", impactLevel := "high" }]
    else []
  (r1.1 ++ r2.1 ++ structEvents, st3)

/-- `_initialize_hashes` via `_scan_directory`: add every discovered
non-ignored file, then compute the structure hash. -/
def initMonitor (fs : List (String × FileData)) : MonitorState :=
  updateStructureHash
    (fs.foldl
      (fun st e => if shouldIgnoreFile e.1 then st else addFileToMonitoring st e.1 e.2)
      { fileHashes := [], contentHashes := [], structureHash := "" })

/-- A whole monitoring lifetime: initialization over `fs0` followed by one
`_detect_file_changes` cycle per later snapshot, accumulating every emitted
event. -/
def runMonitor (fs0 : List (String × FileData)) (cycles : List (List (String × FileData))) :
    List ChangeEvent × MonitorState :=
  cycles.foldl
    (fun acc fs =>
      let r := detect acc.2 fs
      (acc.1 ++ r.1, r.2))
    ([], initMonitor fs0)

end Monitor

/-- Stable descending insertion with respect to a strict `lt`: `x` is placed
before the first element it is not strictly below.  Together with
`sortRankedBy` this is Python's `list.sort(key=…, reverse=True)` (descending,
stable). -/
def insertRankedBy {α : Type} (lt : α → α → Bool) (x : α) : List α → List α
  | [] => [x]
  | y :: ys => if lt x y then y :: insertRankedBy lt x ys else x :: y :: ys

/-- Stable descending sort by the strict comparison `lt`. -/
def sortRankedBy {α : Type} (lt : α → α → Bool) : List α → List α
  | [] => []
  | x :: xs => insertRankedBy lt x (sortRankedBy lt xs)

namespace Cache

/-- Modelled from the spec: `ia_assistant/cache/intelligent_cache.py` is not
part of the source tree (only its unit tests are), so the `CacheStrategy`
enum is taken from §4.3 of the specification: `ExactMatch`, `SemanticMatch`,
`Adaptive`. -/
inductive CacheStrategy where
  | exactMatch
  | semanticMatch
  | adaptive
deriving DecidableEq

/-- Modelled from the spec: the `CacheEntry` record of the missing
`intelligent_cache.py` (fields per §3 of the specification and the shape the
unit tests construct).  Times are epoch seconds. -/
structure CacheEntry where
  queryHash : String
  queryText : String
  response : String
  queryType : String
  promptTemplate : String
  tokensUsed : Nat
  costEstimate : ℚ
  createdAt : Nat
  lastAccessed : Nat
  accessCount : Nat
  relevanceScore : ℚ
  ttlSeconds : Nat
deriving DecidableEq

/-- Modelled from the spec: the metadata dictionary a cache hit returns,
`{cacheType, tokensSaved}`. -/
structure CacheMeta where
  cacheType : String
  tokensSaved : Nat
deriving DecidableEq

/-- Modelled from the spec: the state of the missing `IntelligentCache` —
size and TTL budgets, the keyed entry store, and the per-type
keyword-frequency tables learned for semantic matching. -/
structure IntelligentCache where
  maxSize : Nat
  defaultTtl : Nat
  entries : List (String × CacheEntry)
  patterns : List (String × List (String × Nat))
deriving DecidableEq

/-- Modelled from the spec: the primary cache key is a hash of
(query text, query type, prompt template). -/
def queryKey (query queryType promptTemplate : String) : String :=
  md5 (query ++ "||" ++ queryType ++ "||" ++ promptTemplate)

/-- Modelled from the spec (§3 invariant): an entry is live exactly while
`now < created-at + ttl-seconds`; an expired entry is logically absent. -/
def isExpired (now : Nat) (e : CacheEntry) : Bool :=
  decide (e.createdAt + e.ttlSeconds ≤ now)

/-- Whitespace tokenization of a query, used for the learned keyword
tables. -/
def tokenizeQuery (q : String) : List String :=
  (((splitOnCharL ' ' (lowerStr q).data)).map String.mk).filter (fun t => !t.data.isEmpty)

/-- Modelled from the spec: `put` "updates the per-type keyword-frequency
table used by semantic matching". -/
def updatePatterns (tbl : List (String × List (String × Nat))) (queryType query : String) :
    List (String × List (String × Nat)) :=
  let cur := (lookupA tbl queryType).getD []
  let bumped :=
    (tokenizeQuery query).foldl (fun m t => setA m t ((lookupA m t).getD 0 + 1)) cur
  setA tbl queryType bumped

/-- Modelled from the spec: the eviction rank, "a composite of recency,
access frequency, and relevance score" (the exact composite is unspecified;
any monotone combination satisfies the properties proved here). -/
def entryRank (e : CacheEntry) : ℚ :=
  (e.lastAccessed : ℚ) + (e.accessCount : ℚ) + e.relevanceScore

/-- Strict comparison on ranked entries (used descending). -/
def entryLt (a b : String × CacheEntry) : Bool :=
  decide (entryRank a.2 < entryRank b.2)

/-- Modelled from the spec: the eviction/optimization pass — purge expired
entries first, then drop the lowest-ranked entries until the store is back
within `maxSize`. -/
def optimizeCache (now : Nat) (c : IntelligentCache) : IntelligentCache :=
  let live := c.entries.filter (fun e => !isExpired now e.2)
  if c.maxSize < live.length then
    { c with entries := (sortRankedBy entryLt live).take c.maxSize }
  else
    { c with entries := live }

/-- Modelled from the spec: `put(query, response, type, template, tokensUsed,
costEstimate)` creates an entry with `createdAt = lastAccessed = now`,
`accessCount = 1`, `relevanceScore = 1.0` and the default TTL, stores it
under the primary key, updates the keyword table, and triggers the
optimization pass when the entry count exceeds `maxSize`. -/
def put (now : Nat) (c : IntelligentCache)
    (query response queryType promptTemplate : String)
    (tokensUsed : Nat) (costEstimate : ℚ) : IntelligentCache :=
  let key := queryKey query queryType promptTemplate
  let entry : CacheEntry :=
    { queryHash := key, queryText := query, response := response,
      queryType := queryType, promptTemplate := promptTemplate,
      tokensUsed := tokensUsed, costEstimate := costEstimate,
      createdAt := now, lastAccessed := now, accessCount := 1,
      relevanceScore := 1, ttlSeconds := c.defaultTtl }
  let c' : IntelligentCache :=
    { c with
      entries := setA c.entries key entry
      patterns := updatePatterns c.patterns queryType query }
  if c.maxSize < c'.entries.length then optimizeCache now c' else c'

/-- Jaccard-style token overlap used by the semantic strategy. -/
def overlapSimilarity (a b : List String) : ℚ :=
  let a' := a.dedup
  let b' := b.dedup
  let inter := a'.filter (fun t => t ∈ b')
  let union := a' ++ b'.filter (fun t => t ∉ a')
  if union.length = 0 then 0 else (inter.length : ℚ) / (union.length : ℚ)

/-- Modelled from the spec: the fixed similarity threshold of the semantic
strategy (the specification flags the exact metric and threshold as an open
question; `1/2` is the documented modelling choice). -/
def semanticThreshold : ℚ := 1/2

/-- Modelled from the spec: `ExactMatch` lookup — hash lookup only; a hit
bumps `accessCount` and refreshes `lastAccessed`; an expired entry found
during lookup is treated as absent and lazily removed. -/
def getExact (now : Nat) (c : IntelligentCache)
    (query queryType promptTemplate : String) :
    Option (String × CacheMeta) × IntelligentCache :=
  let key := queryKey query queryType promptTemplate
  match lookupA c.entries key with
  | none => (none, c)
  | some e =>
    if isExpired now e then
      (none, { c with entries := eraseA c.entries key })
    else
      let e' : CacheEntry := { e with accessCount := e.accessCount + 1, lastAccessed := now }
      (some (e.response, { cacheType := "exact_match", tokensSaved := e.tokensUsed }),
       { c with entries := setA c.entries key e' })

/-- Modelled from the spec: `SemanticMatch` lookup — among live entries
sharing the query type, return the entry with the highest token overlap with
the incoming query, provided it clears the threshold. -/
def getSemantic (now : Nat) (c : IntelligentCache)
    (query queryType : String) (_promptTemplate : String) :
    Option (String × CacheMeta) × IntelligentCache :=
  let toks := tokenizeQuery query
  let candidates :=
    c.entries.filter (fun e => decide (e.2.queryType = queryType) && !isExpired now e.2)
  let best :=
    candidates.foldl
      (fun acc e =>
        let s := overlapSimilarity toks (tokenizeQuery e.2.queryText)
        match acc with
        | none => some (e, s)
        | some (e₀, s₀) => if s₀ < s then some (e, s) else some (e₀, s₀))
      none
  match best with
  | some (e, s) =>
    if semanticThreshold ≤ s then
      let e' : CacheEntry := { e.2 with accessCount := e.2.accessCount + 1, lastAccessed := now }
      (some (e.2.response, { cacheType := "semantic_match", tokensSaved := e.2.tokensUsed }),
       { c with entries := setA c.entries e.1 e' })
    else (none, c)
  | none => (none, c)

/-- Modelled from the spec: `get(query, type, template, strategy)` —
`ExactMatch` is a hash lookup, `SemanticMatch` an overlap search, `Adaptive`
tries exact first and falls back to semantic on a miss. -/
def get (now : Nat) (c : IntelligentCache)
    (query queryType promptTemplate : String) (strategy : CacheStrategy) :
    Option (String × CacheMeta) × IntelligentCache :=
  match strategy with
  | .exactMatch => getExact now c query queryType promptTemplate
  | .semanticMatch => getSemantic now c query queryType promptTemplate
  | .adaptive =>
    let r := getExact now c query queryType promptTemplate
    match r.1 with
    | some hit => (some hit, r.2)
    | none => getSemantic now r.2 query queryType promptTemplate

end Cache

namespace Suggest

/-- `SuggestionType` enum of `suggestion_engine.py`. -/
inductive SuggestionType where
  | performance
  | documentation
  | architecture
  | cacheOptimization
  | knowledgeGap
  | usagePattern
deriving DecidableEq

/-- `SuggestionPriority` enum of `suggestion_engine.py`. -/
inductive SuggestionPriority where
  | low
  | medium
  | high
  | critical
deriving DecidableEq

/-- The `ProactiveSuggestion` dataclass (the `timestamp` field is omitted;
`actionable_items` is carried as data).  `confidence` is the exact decimal
the Python float holds. -/
structure ProactiveSuggestion where
  suggestionType : SuggestionType
  priority : SuggestionPriority
  title : String
  description : String
  reasoning : String
  actionableItems : List String
  estimatedImpact : String
  confidence : ℚ
deriving DecidableEq

/-- The `priority_order` dict of `_filter_and_rank_suggestions`. -/
def priorityOrder : SuggestionPriority → Nat
  | .critical => 4
  | .high => 3
  | .medium => 2
  | .low => 1

/-- The deduplication key `(suggestion.suggestion_type, suggestion.title)`. -/
def suggKey (s : ProactiveSuggestion) : SuggestionType × String :=
  (s.suggestionType, s.title)

/-- Strict comparison under the sort key
`(priority_order[s.priority], s.confidence)` (lexicographic). -/
def suggLt (a b : ProactiveSuggestion) : Bool :=
  decide (priorityOrder a.priority < priorityOrder b.priority) ||
    (decide (priorityOrder a.priority = priorityOrder b.priority) &&
      decide (a.confidence < b.confidence))

/-- The first loop of `_filter_and_rank_suggestions`: drop every candidate
whose `(type, title)` key was already seen, keeping first occurrences. -/
def dedupSuggestions : List ProactiveSuggestion → List (SuggestionType × String) →
    List ProactiveSuggestion
  | [], _ => []
  | s :: rest, seen =>
    if suggKey s ∈ seen then dedupSuggestions rest seen
    else s :: dedupSuggestions rest (suggKey s :: seen)

/-- `_filter_and_rank_suggestions`: dedup by `(type, title)`, stable sort by
`(priority, confidence)` descending, keep the top 10. -/
def filterAndRankSuggestions (suggestions : List ProactiveSuggestion) :
    List ProactiveSuggestion :=
  (sortRankedBy suggLt (dedupSuggestions suggestions [])).take 10

/-- `generate_suggestions`: the concatenated detector candidates are passed
explicitly (the six `_detect_*` heuristics read wall-clock telemetry that is
outside the embedding; the ranking pipeline under proof is independent of
how the candidates were produced).  Returns the published list and the
extended `suggestions_history`. -/
def generateSuggestions (candidates history : List ProactiveSuggestion) :
    List ProactiveSuggestion × List ProactiveSuggestion :=
  let out := filterAndRankSuggestions candidates
  (out, history ++ out)

/-- `get_suggestions_history(limit=50)` returns
`self.suggestions_history[-limit:]`. -/
def getSuggestionsHistory (history : List ProactiveSuggestion) (limit : Nat) :
    List ProactiveSuggestion :=
  if limit = 0 then history else history.drop (history.length - limit)

end Suggest

namespace Impact

/-- Specification-side file category ("architecture/decision-record files",
"domain-model files", "code files", everything else), assigned from the
code's file-type string. -/
inductive FileCategory where
  | architectureOrDecisionRecord
  | domainModel
  | codeFile
  | otherFile
deriving DecidableEq

/-- Bridges the code's `_get_file_type` string to the specification's
category vocabulary. -/
def categoryOfFileType (t : String) : FileCategory :=
  if t = "adr" ∨ t = "architecture" then .architectureOrDecisionRecord
  else if t = "ddd" ∨ t = "domain" then .domainModel
  else if t = "implementation" ∨ t = "code" then .codeFile
  else .otherFile

/-- Specification-side category bonus: architecture/decision-record +3,
domain-model +2, code +1, else 0. -/
def specCategoryBonus : FileCategory → Nat
  | .architectureOrDecisionRecord => 3
  | .domainModel => 2
  | .codeFile => 1
  | .otherFile => 0

/-- Specification-side affected-count bucket: ≤2→1, ≤5→2, ≤10→3, else 4. -/
def specAffectedBucket (n : Nat) : Nat :=
  if n ≤ 2 then 1 else if n ≤ 5 then 2 else if n ≤ 10 then 3 else 4

/-- Specification-side direct-dependency bucket: ≤2→1, ≤5→2, else 3. -/
def specDepBucket (n : Nat) : Nat :=
  if n ≤ 2 then 1 else if n ≤ 5 then 2 else 3

/-- Specification-side score-to-level mapping: ≤3 Low, ≤5 Medium, ≤7 High,
else Critical. -/
def specLevelOfScore (s : Nat) : ImpactLevel :=
  if s ≤ 3 then .low else if s ≤ 5 then .medium else if s ≤ 7 then .high else .critical

/-- Specification-side base strength per dependency kind: reference 0.3,
imports 0.8, extends 0.9, implements 0.9, depends-on 0.7. -/
def specBaseStrength : DependencyType → ℚ
  | .reference => 3/10
  | .imports => 8/10
  | .extendsConcept => 9/10
  | .implementsConcept => 9/10
  | .dependsOn => 7/10

/-- Specification-side context factor: ×1.2 on an urgency keyword
("critical"/"essential"), else ×0.8 on a de-emphasis keyword
("optional"/"maybe"), else ×1 (keywords matched case-insensitively, as the
code lowercases the context). -/
def specContextFactor (context : String) : ℚ :=
  if strContains (lowerStr context) "critical" || strContains (lowerStr context) "essential"
    then 12/10
  else if strContains (lowerStr context) "optional" || strContains (lowerStr context) "maybe"
    then 8/10
  else 1

/-- One directed edge of the recorded dependency graph. -/
def edgeRel (deps : List (String × List Dependency)) (a b : String) : Prop :=
  (a, b) ∈ edgesOf deps

/-- Specification-side transitive forward reachability in the dependency
graph. -/
def Reaches (deps : List (String × List Dependency)) (a b : String) : Prop :=
  Relation.ReflTransGen (edgeRel deps) a b

/-- Specification-side reverse lookup: `x` has a recorded dependency whose
target is `f`. -/
def RevDep (deps : List (String × List Dependency)) (f x : String) : Prop :=
  ∃ l, (x, l) ∈ deps ∧ ∃ d ∈ l, d.targetFile = f

/-- The three-file scenario of the claim: `A` depends on `B` through an
imports dependency and `B` depends on `C` through a reference dependency. -/
def scenarioThree (A B C : String) : ImpactState :=
  { deps := [(A, [{ sourceFile := A, targetFile := B, depType := .imports,
                    lineNumber := some 1, context := "import", strength := 1 }]),
             (B, [{ sourceFile := B, targetFile := C, depType := .reference,
                    lineNumber := some 1, context := "ref", strength := 1 }])],
    history := [] }

end Impact

namespace Monitor

/-- The ignore condition exactly as the claim states it: the path contains
`.git`, `.svn`, `__pycache__` or `.DS_Store`, or ends in
`.pyc`/`.pyo`/`.log`/`.tmp`. -/
def claimIgnoredCond (p : String) : Prop :=
  strContains p ".git" = true ∨ strContains p ".svn" = true ∨
  strContains p "__pycache__" = true ∨ strContains p ".DS_Store" = true ∨
  strEndsWith p ".pyc" = true ∨ strEndsWith p ".pyo" = true ∨
  strEndsWith p ".log" = true ∨ strEndsWith p ".tmp" = true

end Monitor

namespace Suggest

/-- Specification-side ranking relation: strictly higher priority, or equal
priority and no smaller confidence. -/
def suggGe (a b : ProactiveSuggestion) : Prop :=
  priorityOrder b.priority < priorityOrder a.priority ∨
    (priorityOrder a.priority = priorityOrder b.priority ∧ b.confidence ≤ a.confidence)

end Suggest

/-! ### General lemmas about the shared helpers -/

theorem md5_inj {a b : String} (h : md5 a = md5 b) : a = b := by
  unfold md5 at h
  have hd := congrArg String.data h
  simp only [String.data_append] at hd
  exact String.ext (List.append_cancel_left hd)

theorem md5_ne_empty (s : String) : md5 s ≠ "" := by
  intro h
  unfold md5 at h
  have hd := congrArg String.data h
  simp [String.data_append] at hd

theorem lookupA_setA_self {β : Type} (m : List (String × β)) (k : String) (v : β) :
    lookupA (setA m k v) k = some v := by
  induction m with
  | nil => simp [setA, lookupA]
  | cons e rest ih =>
      by_cases h : e.1 = k
      · simp [setA, h, lookupA]
      · simp [setA, h, lookupA, ih]

theorem lookupA_setA_ne {β : Type} (m : List (String × β)) (k k' : String) (v : β)
    (h : k ≠ k') : lookupA (setA m k v) k' = lookupA m k' := by
  induction m with
  | nil => simp [setA, lookupA, h]
  | cons e rest ih =>
      by_cases he : e.1 = k
      · have he' : e.1 ≠ k' := by rw [he]; exact h
        simp [setA, he, lookupA, h, he']
      · by_cases he' : e.1 = k'
        · simp [setA, he, lookupA, he', Ne.symm h]
        · simp [setA, he, lookupA, he', ih]

theorem lookupA_eraseA_ne {β : Type} (m : List (String × β)) (k k' : String)
    (h : k ≠ k') : lookupA (eraseA m k) k' = lookupA m k' := by
  induction m with
  | nil => simp [eraseA]
  | cons e rest ih =>
      by_cases he : e.1 = k
      · have hne : e.1 ≠ k' := by rw [he]; exact h
        simp [eraseA, he, lookupA, hne, h]
      · by_cases he' : e.1 = k'
        · simp [eraseA, he, lookupA, he', Ne.symm h]
        · simp [eraseA, he, lookupA, he', ih]

theorem lookupA_none_of_not_mem_keys {β : Type} (m : List (String × β)) (k : String)
    (h : k ∉ m.map Prod.fst) : lookupA m k = none := by
  induction m with
  | nil => rfl
  | cons e rest ih =>
      simp only [List.map_cons, List.mem_cons] at h
      push_neg at h
      have h1 : e.1 ≠ k := fun hk => h.1 hk.symm
      simp [lookupA, h1, ih h.2]

theorem not_mem_keys_of_lookupA_none {β : Type} (m : List (String × β)) (k : String)
    (h : lookupA m k = none) : k ∉ m.map Prod.fst := by
  induction m with
  | nil => simp
  | cons e rest ih =>
      by_cases he : e.1 = k
      · simp [lookupA, he] at h
      · simp only [lookupA, he, if_false] at h
        simp only [List.map_cons, List.mem_cons]
        push_neg
        exact ⟨fun hk => he hk.symm, ih h⟩

theorem setA_length_le {β : Type} (m : List (String × β)) (k : String) (v : β) :
    (setA m k v).length ≤ m.length + 1 := by
  induction m with
  | nil => simp [setA]
  | cons e rest ih =>
      by_cases h : e.1 = k
      · simp [setA, h]
      · simpa [setA, h] using Nat.succ_le_succ ih

namespace Impact

theorem fileTypeBonus_eq_specCategoryBonus (t : String) :
    fileTypeBonus t = specCategoryBonus (categoryOfFileType t) := by
  unfold fileTypeBonus specCategoryBonus categoryOfFileType
  split_ifs <;> rfl

/-- C5: `_calculate_impact_level` is a deterministic pure function of the
affected-file count, the changed file's category and its direct-dependency
count — the sum of the three specification buckets (affected-count bucket,
category bonus, direct-dependency bucket) mapped through the ≤3 Low / ≤5
Medium / ≤7 High / else Critical thresholds. -/
theorem calc_impact_level_is_spec_score (deps : List (String × List Dependency))
    (changedFile : String) (affectedFiles : List String) :
    calcImpactLevel deps changedFile affectedFiles =
      specLevelOfScore
        (specAffectedBucket affectedFiles.length
          + specCategoryBonus (categoryOfFileType (getFileType changedFile))
          + specDepBucket ((lookupA deps changedFile).getD []).length) := by
  unfold calcImpactLevel
  rw [← fileTypeBonus_eq_specCategoryBonus]
  rfl

theorem baseStrength_getD_cases (depType : String) :
    (lookupA baseStrengths depType).getD (5/10) = 3/10 ∨
    (lookupA baseStrengths depType).getD (5/10) = 8/10 ∨
    (lookupA baseStrengths depType).getD (5/10) = 9/10 ∨
    (lookupA baseStrengths depType).getD (5/10) = 7/10 ∨
    (lookupA baseStrengths depType).getD (5/10) = 5/10 := by
  simp only [baseStrengths, lookupA]
  split_ifs <;> simp

theorem baseStrength_getD_pos (depType : String) :
    0 < (lookupA baseStrengths depType).getD (5/10) := by
  rcases baseStrength_getD_cases depType with h | h | h | h | h <;> rw [h] <;> norm_num

/-- C6: for every dependency-kind string and every context text the computed
dependency strength lies in [0, 1], and on the five recognised kinds it is
exactly the specification's base strength scaled by the context factor and
clamped at 1. -/
theorem dependency_strength_in_unit_interval (depType context : String) :
    0 ≤ calcDependencyStrength depType context ∧
    calcDependencyStrength depType context ≤ 1 ∧
    ∀ k : DependencyType, depType = k.value →
      calcDependencyStrength depType context
        = min 1 (specBaseStrength k * specContextFactor context) := by
  refine ⟨?_, min_le_left _ _, ?_⟩
  · have hb := baseStrength_getD_pos depType
    simp only [calcDependencyStrength]
    split_ifs <;> refine le_min (by norm_num) (by positivity)
  · intro k hk
    subst hk
    cases k
    case reference =>
        show calcDependencyStrength "reference" context
          = min 1 ((3/10 : ℚ) * specContextFactor context)
        simp only [calcDependencyStrength, specContextFactor]
        rw [show lookupA baseStrengths "reference" = some (3/10) from by
          simp [baseStrengths, lookupA]]
        simp only [Option.getD_some]
        split_ifs <;> norm_num
    case imports =>
        show calcDependencyStrength "imports" context
          = min 1 ((8/10 : ℚ) * specContextFactor context)
        simp only [calcDependencyStrength, specContextFactor]
        rw [show lookupA baseStrengths "imports" = some (8/10) from by
          simp [baseStrengths, lookupA]]
        simp only [Option.getD_some]
        split_ifs <;> norm_num
    case extendsConcept =>
        show calcDependencyStrength "extends" context
          = min 1 ((9/10 : ℚ) * specContextFactor context)
        simp only [calcDependencyStrength, specContextFactor]
        rw [show lookupA baseStrengths "extends" = some (9/10) from by
          simp [baseStrengths, lookupA]]
        simp only [Option.getD_some]
        split_ifs <;> norm_num
    case implementsConcept =>
        show calcDependencyStrength "implements" context
          = min 1 ((9/10 : ℚ) * specContextFactor context)
        simp only [calcDependencyStrength, specContextFactor]
        rw [show lookupA baseStrengths "implements" = some (9/10) from by
          simp [baseStrengths, lookupA]]
        simp only [Option.getD_some]
        split_ifs <;> norm_num
    case dependsOn =>
        show calcDependencyStrength "depends_on" context
          = min 1 ((7/10 : ℚ) * specContextFactor context)
        simp only [calcDependencyStrength, specContextFactor]
        rw [show lookupA baseStrengths "depends_on" = some (7/10) from by
          simp [baseStrengths, lookupA]]
        simp only [Option.getD_some]
        split_ifs <;> norm_num

end Impact

namespace Cache

/-- C7: on a cache still within its size budget, `put(q, r, type, template, …)`
followed immediately by `get(q, type, template, ExactMatch)` returns `r` with
metadata `cache_type = "exact_match"` (and the stored token count). -/
theorem cache_put_get_roundtrip (now : Nat) (c : IntelligentCache)
    (q r qt tmpl : String) (tokens : Nat) (cost : ℚ)
    (hsize : c.entries.length < c.maxSize) (httl : 0 < c.defaultTtl) :
    (get now (put now c q r qt tmpl tokens cost) q qt tmpl CacheStrategy.exactMatch).1 =
      some (r, { cacheType := "exact_match", tokensSaved := tokens }) := by
  simp only [put]
  split
  case isTrue hov =>
      exfalso
      have hle := setA_length_le c.entries (queryKey q qt tmpl)
        { queryHash := queryKey q qt tmpl, queryText := q, response := r,
          queryType := qt, promptTemplate := tmpl, tokensUsed := tokens,
          costEstimate := cost, createdAt := now, lastAccessed := now,
          accessCount := 1, relevanceScore := 1,
          ttlSeconds := c.defaultTtl }
      omega
  case isFalse hok =>
      dsimp only [get, getExact]
      rw [lookupA_setA_self]
      have hexp : isExpired now
          { queryHash := queryKey q qt tmpl, queryText := q, response := r,
            queryType := qt, promptTemplate := tmpl, tokensUsed := tokens,
            costEstimate := cost, createdAt := now, lastAccessed := now,
            accessCount := 1, relevanceScore := 1,
            ttlSeconds := c.defaultTtl } = false := by
        unfold isExpired
        simp only [decide_eq_false_iff_not]
        omega
      simp [hexp]

/-- Witness for C7 at a concrete cache. -/
theorem cache_put_get_roundtrip_witness :
    (([] : List (String × CacheEntry)).length < 10 ∧ (0 : Nat) < 60) ∧
    (get 5 (put 5 { maxSize := 10, defaultTtl := 60, entries := [], patterns := [] }
        "Como esta a arquitetura?" "A arquitetura esta bem estruturada." "architecture"
        "test template" 50 (1/10000)) "Como esta a arquitetura?" "architecture"
        "test template" CacheStrategy.exactMatch).1 =
      some ("A arquitetura esta bem estruturada.",
        { cacheType := "exact_match", tokensSaved := 50 }) :=
  ⟨⟨by decide, by decide⟩,
    cache_put_get_roundtrip 5 { maxSize := 10, defaultTtl := 60, entries := [], patterns := [] }
      "Como esta a arquitetura?" "A arquitetura esta bem estruturada." "architecture"
      "test template" 50 (1/10000) (by decide) (by decide)⟩

end Cache

namespace Impact

theorem analyzeImpact_history_snoc (st : ImpactState) (f : String) :
    (analyzeImpact st f).2.history = st.history ++ [(analyzeImpact st f).1] := rfl

theorem iterAnalyze_history_length (f : String) :
    ∀ (n : Nat) (st : ImpactState),
      (iterAnalyze f n st).history.length = st.history.length + n := by
  intro n
  induction n with
  | zero => intro st; simp [iterAnalyze]
  | succ n ih =>
      intro st
      have h := ih (analyzeImpact st f).2
      rw [iterAnalyze, h, analyzeImpact_history_snoc]
      simp
      omega

/-- C9 counterexample: the stored `impact_history` is not bounded by 50 —
after 51 `analyze_impact` calls on a fresh analyzer it holds 51 records. -/
theorem impact_history_exceeds_50 :
    (iterAnalyze "f.md" 51 { deps := [], history := [] }).history.length = 51 ∧
    50 < (iterAnalyze "f.md" 51 { deps := [], history := [] }).history.length := by
  have h := iterAnalyze_history_length "f.md" 51 { deps := [], history := [] }
  simp at h
  exact ⟨h, by rw [h]; omega⟩

/-- C9 amended: `analyze_impact` only ever appends to the stored history
(which is unbounded), and the read API `get_impact_history` with its default
`limit = 50` returns at most the 50 most recent records (a suffix of the
stored history). -/
theorem impact_history_append_only (st : ImpactState) (f : String) :
    (analyzeImpact st f).2.history = st.history ++ [(analyzeImpact st f).1] ∧
    (getImpactHistory (analyzeImpact st f).2 50).length ≤ 50 ∧
    ∃ pre, pre ++ getImpactHistory (analyzeImpact st f).2 50 =
      (analyzeImpact st f).2.history := by
  refine ⟨rfl, ?_, ?_⟩
  · unfold getImpactHistory
    simp only [if_neg (by omega : ¬ (50 : Nat) = 0)]
    rw [List.length_drop]
    omega
  · unfold getImpactHistory
    simp only [if_neg (by omega : ¬ (50 : Nat) = 0)]
    exact ⟨_, List.take_append_drop _ _⟩

end Impact

/-! ### Stable descending insertion sort: permutation and sortedness -/

theorem mem_insertRankedBy {α : Type} (lt : α → α → Bool) (x z : α) (l : List α) :
    z ∈ insertRankedBy lt x l ↔ z = x ∨ z ∈ l := by
  induction l with
  | nil => simp [insertRankedBy]
  | cons y ys ih =>
      by_cases h : lt x y = true
      · simp only [insertRankedBy, if_pos h, List.mem_cons, ih]
        tauto
      · simp only [insertRankedBy, if_neg h, List.mem_cons]

theorem perm_insertRankedBy {α : Type} (lt : α → α → Bool) (x : α) (l : List α) :
    (insertRankedBy lt x l).Perm (x :: l) := by
  induction l with
  | nil => simp [insertRankedBy]
  | cons y ys ih =>
      by_cases h : lt x y = true
      · rw [insertRankedBy, if_pos h]
        exact (ih.cons y).trans (List.Perm.swap x y ys)
      · rw [insertRankedBy, if_neg h]

theorem perm_sortRankedBy {α : Type} (lt : α → α → Bool) (l : List α) :
    (sortRankedBy lt l).Perm l := by
  induction l with
  | nil => simp [sortRankedBy]
  | cons x xs ih =>
      rw [sortRankedBy]
      exact (perm_insertRankedBy lt x (sortRankedBy lt xs)).trans (ih.cons x)

theorem pairwise_insertRankedBy {α : Type} (lt : α → α → Bool) (ge : α → α → Prop)
    (hnot : ∀ a b, lt a b = false → ge a b)
    (hyes : ∀ a b, lt a b = true → ge b a)
    (htrans : ∀ a b c, ge a b → ge b c → ge a c)
    (x : α) (l : List α) (hl : l.Pairwise ge) :
    (insertRankedBy lt x l).Pairwise ge := by
  induction l with
  | nil => simp [insertRankedBy]
  | cons y ys ih =>
      rcases List.pairwise_cons.mp hl with ⟨hy, hys⟩
      by_cases h : lt x y = true
      · rw [insertRankedBy, if_pos h]
        refine List.pairwise_cons.mpr ⟨?_, ih hys⟩
        intro z hz
        rcases (mem_insertRankedBy lt x z ys).mp hz with heq | hz'
        · rw [heq]; exact hyes x y h
        · exact hy z hz'
      · rw [insertRankedBy, if_neg h]
        refine List.pairwise_cons.mpr ⟨?_, hl⟩
        intro z hz
        rcases List.mem_cons.mp hz with rfl | hz'
        · exact hnot x z (Bool.eq_false_iff.mpr h)
        · exact htrans x y z (hnot x y (Bool.eq_false_iff.mpr h)) (hy z hz')

theorem pairwise_sortRankedBy {α : Type} (lt : α → α → Bool) (ge : α → α → Prop)
    (hnot : ∀ a b, lt a b = false → ge a b)
    (hyes : ∀ a b, lt a b = true → ge b a)
    (htrans : ∀ a b c, ge a b → ge b c → ge a c)
    (l : List α) : (sortRankedBy lt l).Pairwise ge := by
  induction l with
  | nil => simp [sortRankedBy]
  | cons x xs ih =>
      rw [sortRankedBy]
      exact pairwise_insertRankedBy lt ge hnot hyes htrans x _ ih

namespace Suggest

theorem suggGe_of_not_lt (a b : ProactiveSuggestion) (h : suggLt a b = false) :
    suggGe a b := by
  unfold suggLt at h
  simp only [Bool.or_eq_false_iff, Bool.and_eq_false_iff, decide_eq_false_iff_not] at h
  obtain ⟨h1, h2⟩ := h
  unfold suggGe
  rcases h2 with h2 | h2
  · left; omega
  · by_cases heq : priorityOrder a.priority = priorityOrder b.priority
    · exact Or.inr ⟨heq, le_of_not_lt h2⟩
    · left; omega

theorem suggGe_of_lt (a b : ProactiveSuggestion) (h : suggLt a b = true) :
    suggGe b a := by
  unfold suggLt at h
  simp only [Bool.or_eq_true, Bool.and_eq_true, decide_eq_true_eq] at h
  unfold suggGe
  rcases h with h | ⟨h1, h2⟩
  · left; exact h
  · exact Or.inr ⟨h1.symm, le_of_lt h2⟩

theorem suggGe_trans (a b c : ProactiveSuggestion) (hab : suggGe a b) (hbc : suggGe b c) :
    suggGe a c := by
  unfold suggGe at *
  rcases hab with hab | ⟨hab1, hab2⟩ <;> rcases hbc with hbc | ⟨hbc1, hbc2⟩
  · left; omega
  · left; omega
  · left; omega
  · exact Or.inr ⟨by omega, le_trans hbc2 hab2⟩

theorem dedupSuggestions_key_not_mem_seen :
    ∀ (l : List ProactiveSuggestion) (seen : List (SuggestionType × String))
      (s : ProactiveSuggestion), s ∈ dedupSuggestions l seen → suggKey s ∉ seen := by
  intro l
  induction l with
  | nil => intro seen s hs; simp [dedupSuggestions] at hs
  | cons x xs ih =>
      intro seen s hs
      by_cases h : suggKey x ∈ seen
      · rw [dedupSuggestions, if_pos h] at hs
        exact ih seen s hs
      · rw [dedupSuggestions, if_neg h] at hs
        rcases List.mem_cons.mp hs with rfl | hs'
        · exact h
        · have := ih (suggKey x :: seen) s hs'
          intro hmem
          exact this (List.mem_cons_of_mem _ hmem)

theorem dedupSuggestions_pairwise_ne :
    ∀ (l : List ProactiveSuggestion) (seen : List (SuggestionType × String)),
      (dedupSuggestions l seen).Pairwise (fun a b => suggKey a ≠ suggKey b) := by
  intro l
  induction l with
  | nil => intro seen; simp [dedupSuggestions]
  | cons x xs ih =>
      intro seen
      by_cases h : suggKey x ∈ seen
      · rw [dedupSuggestions, if_pos h]; exact ih seen
      · rw [dedupSuggestions, if_neg h]
        refine List.pairwise_cons.mpr ⟨?_, ih (suggKey x :: seen)⟩
        intro b hb hkey
        have hnot := dedupSuggestions_key_not_mem_seen xs (suggKey x :: seen) b hb
        exact hnot (by rw [← hkey]; exact List.mem_cons_self _ _)

/-- C8: every `generate_suggestions()` call publishes at most 10 suggestions,
no two sharing the `(suggestion type, title)` pair, ordered by priority
descending and, within equal priority, by confidence descending. -/
theorem generate_suggestions_ranked_capped
    (candidates history : List ProactiveSuggestion) :
    (generateSuggestions candidates history).1.length ≤ 10 ∧
    (generateSuggestions candidates history).1.Pairwise
      (fun a b => suggKey a ≠ suggKey b) ∧
    (generateSuggestions candidates history).1.Pairwise suggGe := by
  have hout : (generateSuggestions candidates history).1
      = (sortRankedBy suggLt (dedupSuggestions candidates [])).take 10 := rfl
  refine ⟨?_, ?_, ?_⟩
  · rw [hout]
    exact List.length_take_le 10 _
  · rw [hout]
    have hperm := perm_sortRankedBy suggLt (dedupSuggestions candidates [])
    have hpair := (hperm.pairwise_iff (fun hh => Ne.symm hh)).mpr
      (dedupSuggestions_pairwise_ne candidates [])
    exact hpair.sublist (List.take_sublist 10 _)
  · rw [hout]
    have hpair := pairwise_sortRankedBy suggLt suggGe suggGe_of_not_lt suggGe_of_lt
      suggGe_trans (dedupSuggestions candidates [])
    exact hpair.sublist (List.take_sublist 10 _)

end Suggest

/-! ### Further association-list lemmas -/

theorem mem_of_lookupA_some {β : Type} (m : List (String × β)) (k : String) (v : β)
    (h : lookupA m k = some v) : (k, v) ∈ m := by
  induction m with
  | nil => simp [lookupA] at h
  | cons e rest ih =>
      by_cases he : e.1 = k
      · rw [lookupA, if_pos he] at h
        obtain ⟨e1, e2⟩ := e
        simp only at he
        simp only [Option.some.injEq] at h
        subst he
        subst h
        exact List.mem_cons_self _ _
      · rw [lookupA, if_neg he] at h
        exact List.mem_cons_of_mem _ (ih h)

theorem lookupA_eq_of_mem_nodup {β : Type} (m : List (String × β)) (k : String) (v : β)
    (hnd : (m.map Prod.fst).Nodup) (h : (k, v) ∈ m) : lookupA m k = some v := by
  induction m with
  | nil => simp at h
  | cons e rest ih =>
      rcases List.mem_cons.mp h with rfl | hmem
      · simp [lookupA]
      · have hnd' := (List.pairwise_cons.mp hnd).2
        have hne : e.1 ≠ k := by
          intro hk
          have : k ∈ rest.map Prod.fst :=
            List.mem_map.mpr ⟨(k, v), hmem, rfl⟩
          have hforall := (List.pairwise_cons.mp hnd).1
          exact hforall k this (by rw [hk])
        rw [lookupA, if_neg hne]
        exact ih hnd' hmem

namespace Monitor

/-! ### C10: ignore patterns make paths invisible -/

theorem shouldIgnore_of_claimCond (p : String) (h : claimIgnoredCond p) :
    shouldIgnoreFile p = true := by
  unfold shouldIgnoreFile
  apply List.any_eq_true.mpr
  rcases h with h | h | h | h | h | h | h | h
  · exact ⟨".git", by simp [ignoredPatterns], by rw [if_neg (by decide)]; exact h⟩
  · exact ⟨".svn", by simp [ignoredPatterns], by rw [if_neg (by decide)]; exact h⟩
  · exact ⟨"__pycache__", by simp [ignoredPatterns], by rw [if_neg (by decide)]; exact h⟩
  · exact ⟨".DS_Store", by simp [ignoredPatterns], by rw [if_neg (by decide)]; exact h⟩
  · refine ⟨"*.pyc", by simp [ignoredPatterns], ?_⟩
    rw [if_pos (by decide), show strDrop "*.pyc" 1 = ".pyc" from by decide]
    exact h
  · refine ⟨"*.pyo", by simp [ignoredPatterns], ?_⟩
    rw [if_pos (by decide), show strDrop "*.pyo" 1 = ".pyo" from by decide]
    exact h
  · refine ⟨"*.log", by simp [ignoredPatterns], ?_⟩
    rw [if_pos (by decide), show strDrop "*.log" 1 = ".log" from by decide]
    exact h
  · refine ⟨"*.tmp", by simp [ignoredPatterns], ?_⟩
    rw [if_pos (by decide), show strDrop "*.tmp" 1 = ".tmp" from by decide]
    exact h

theorem claimCond_ne_empty (p : String) (h : claimIgnoredCond p) : p ≠ "" := by
  intro hp
  subst hp
  have : ¬ claimIgnoredCond "" := by
    intro hc
    rcases hc with h | h | h | h | h | h | h | h <;> revert h <;> decide
  exact this h

theorem processTracked_avoids (fs : List (String × FileData)) :
    ∀ (entries : List (String × String)) (st : MonitorState) (p : String),
      p ∉ entries.map Prod.fst →
      lookupA st.fileHashes p = none →
      (∀ e ∈ (processTracked fs entries st).1, e.filePath ≠ p) ∧
      lookupA (processTracked fs entries st).2.fileHashes p = none := by
  intro entries
  induction entries with
  | nil => intro st p _ h; exact ⟨by simp [processTracked], h⟩
  | cons hd rest ih =>
      intro st p hp hp0
      obtain ⟨q, oldh⟩ := hd
      have hq : q ≠ p := by
        intro hk
        exact hp (by rw [← hk]; simp)
      have hrest : p ∉ rest.map Prod.fst := by
        intro hmem
        exact hp (List.mem_cons_of_mem _ hmem)
      rw [processTracked]
      cases hlk : fsLookup fs q with
      | none =>
          dsimp only
          have hstepped := ih
            { st with
              fileHashes := eraseA st.fileHashes q
              contentHashes := eraseA st.contentHashes q }
            p hrest (by rw [lookupA_eraseA_ne _ _ _ hq]; exact hp0)
          refine ⟨?_, hstepped.2⟩
          intro e he
          rcases List.mem_cons.mp he with rfl | he'
          · exact hq
          · exact hstepped.1 e he'
      | some fd =>
          dsimp only
          by_cases hch : fileHash fd ≠ oldh
          · rw [if_pos hch]
            dsimp only
            have hstepped := ih
              { st with
                fileHashes := setA st.fileHashes q (fileHash fd)
                contentHashes := setA st.contentHashes q (contentHash fd) }
              p hrest (by rw [lookupA_setA_ne _ _ _ _ hq]; exact hp0)
            refine ⟨?_, hstepped.2⟩
            intro e he
            rcases List.mem_cons.mp he with rfl | he'
            · exact hq
            · exact hstepped.1 e he'
          · rw [if_neg hch]
            exact ih st p hrest hp0

theorem processNew_avoids :
    ∀ (entries : List (String × FileData)) (st : MonitorState) (p : String),
      shouldIgnoreFile p = true →
      lookupA st.fileHashes p = none →
      (∀ e ∈ (processNew entries st).1, e.filePath ≠ p) ∧
      lookupA (processNew entries st).2.fileHashes p = none := by
  intro entries
  induction entries with
  | nil => intro st p _ h; exact ⟨by simp [processNew], h⟩
  | cons hd rest ih =>
      intro st p hig hp0
      obtain ⟨q, fd⟩ := hd
      rw [processNew]
      by_cases hc : shouldIgnoreFile q = false ∧ lookupA st.fileHashes q = none
      · rw [if_pos hc]
        have hq : q ≠ p := by
          intro hk
          rw [hk] at hc
          rw [hig] at hc
          exact Bool.true_eq_false.mp hc.1
        have hstepped := ih (addFileToMonitoring st q fd) p hig
          (by
            unfold addFileToMonitoring
            rw [lookupA_setA_ne _ _ _ _ hq]
            exact hp0)
        refine ⟨?_, hstepped.2⟩
        intro e he
        rcases List.mem_cons.mp he with rfl | he'
        · exact hq
        · exact hstepped.1 e he'
      · rw [if_neg hc]
        exact ih st p hig hp0

theorem initMonitor_avoids (fs : List (String × FileData)) (p : String)
    (hig : shouldIgnoreFile p = true) :
    lookupA (initMonitor fs).fileHashes p = none := by
  unfold initMonitor
  have : ∀ (st : MonitorState), lookupA st.fileHashes p = none →
      lookupA (fs.foldl
        (fun st e => if shouldIgnoreFile e.1 then st else addFileToMonitoring st e.1 e.2)
        st).fileHashes p = none := by
    induction fs with
    | nil => intro st h; exact h
    | cons hd rest ih =>
        intro st h
        rw [List.foldl_cons]
        by_cases hi : shouldIgnoreFile hd.1
        · rw [if_pos hi]; exact ih st h
        · rw [if_neg hi]
          apply ih
          have hq : hd.1 ≠ p := by
            intro hk
            rw [hk, hig] at hi
            exact hi rfl
          unfold addFileToMonitoring
          rw [lookupA_setA_ne _ _ _ _ hq]
          exact h
  exact this _ rfl

theorem detect_avoids (st : MonitorState) (fs : List (String × FileData)) (p : String)
    (hig : shouldIgnoreFile p = true) (hne : p ≠ "")
    (hp0 : lookupA st.fileHashes p = none) :
    (∀ e ∈ (detect st fs).1, e.filePath ≠ p) ∧
    lookupA (detect st fs).2.fileHashes p = none := by
  have hkeys : p ∉ st.fileHashes.map Prod.fst := not_mem_keys_of_lookupA_none _ _ hp0
  have h1 := processTracked_avoids fs st.fileHashes st p hkeys hp0
  have h2 := processNew_avoids fs (processTracked fs st.fileHashes st).2 p hig h1.2
  constructor
  · intro e he
    rw [detect] at he
    simp only [List.mem_append] at he
    rcases he with (he | he) | he
    · exact h1.1 e he
    · exact h2.1 e he
    · by_cases hs : (updateStructureHash (processNew fs (processTracked fs st.fileHashes st).2).2).structureHash ≠ st.structureHash
      · rw [if_pos hs] at he
        rcases List.mem_singleton.mp he with rfl
        simpa using Ne.symm hne
      · rw [if_neg hs] at he
        simp at he
  · rw [detect]
    exact h2.2

/-- C10: every path matching an ignore pattern as the claim spells it out
(substring `.git`, `.svn`, `__pycache__`, `.DS_Store`, or suffix
`.pyc`/`.pyo`/`.log`/`.tmp`) is never added to the monitored set and never
appears as the path of any emitted `ChangeEvent`, across the whole monitor
lifetime — in particular files under a `.github` directory are invisible. -/
theorem ignored_paths_invisible (p : String) (fs0 : List (String × FileData))
    (cycles : List (List (String × FileData))) (hig : claimIgnoredCond p) :
    lookupA (runMonitor fs0 cycles).2.fileHashes p = none ∧
    ∀ e ∈ (runMonitor fs0 cycles).1, e.filePath ≠ p := by
  have hsi := shouldIgnore_of_claimCond p hig
  have hne := claimCond_ne_empty p hig
  unfold runMonitor
  have haux : ∀ (cs : List (List (String × FileData)))
      (acc : List ChangeEvent × MonitorState),
      lookupA acc.2.fileHashes p = none →
      (∀ e ∈ acc.1, e.filePath ≠ p) →
      lookupA (cs.foldl
        (fun acc fs =>
          let r := detect acc.2 fs
          (acc.1 ++ r.1, r.2)) acc).2.fileHashes p = none ∧
      ∀ e ∈ (cs.foldl
        (fun acc fs =>
          let r := detect acc.2 fs
          (acc.1 ++ r.1, r.2)) acc).1, e.filePath ≠ p := by
    intro cs
    induction cs with
    | nil => intro acc h1 h2; exact ⟨h1, h2⟩
    | cons fs rest ih =>
        intro acc h1 h2
        rw [List.foldl_cons]
        have hd := detect_avoids acc.2 fs p hsi hne h1
        apply ih
        · exact hd.2
        · intro e he
          rcases List.mem_append.mp he with he' | he'
          · exact h2 e he'
          · exact hd.1 e he'
  exact haux cycles ([], initMonitor fs0) (initMonitor_avoids fs0 p hsi) (by simp)

/-- Witness for C10: a file under `.github` is invisible through
initialization and a detection cycle. -/
theorem ignored_paths_invisible_witness :
    claimIgnoredCond ".github/workflows/ci.yml" ∧
    (lookupA (runMonitor
        [(".github/workflows/ci.yml", ⟨true, true, 1, 1, "on: push"⟩),
         ("readme.md", ⟨true, true, 1, 1, "# hello"⟩)]
        [[(".github/workflows/ci.yml", ⟨true, true, 2, 2, "on: pull"⟩),
          ("readme.md", ⟨true, true, 1, 1, "# hello"⟩)]]).2.fileHashes
        ".github/workflows/ci.yml" = none ∧
      ∀ e ∈ (runMonitor
        [(".github/workflows/ci.yml", ⟨true, true, 1, 1, "on: push"⟩),
         ("readme.md", ⟨true, true, 1, 1, "# hello"⟩)]
        [[(".github/workflows/ci.yml", ⟨true, true, 2, 2, "on: pull"⟩),
          ("readme.md", ⟨true, true, 1, 1, "# hello"⟩)]]).1,
        e.filePath ≠ ".github/workflows/ci.yml") :=
  ⟨by unfold claimIgnoredCond; decide,
    ignored_paths_invisible ".github/workflows/ci.yml"
      [(".github/workflows/ci.yml", ⟨true, true, 1, 1, "on: push"⟩),
       ("readme.md", ⟨true, true, 1, 1, "# hello"⟩)]
      [[(".github/workflows/ci.yml", ⟨true, true, 2, 2, "on: pull"⟩),
        ("readme.md", ⟨true, true, 1, 1, "# hello"⟩)]]
      (by unfold claimIgnoredCond; decide)⟩

/-! ### C2/C4: characterizing the events `detect` emits for a tracked path -/

theorem processTracked_event_paths (fs : List (String × FileData)) :
    ∀ (entries : List (String × String)) (st : MonitorState),
      ∀ e ∈ (processTracked fs entries st).1, e.filePath ∈ entries.map Prod.fst := by
  intro entries
  induction entries with
  | nil => intro st e he; simp [processTracked] at he
  | cons hd rest ih =>
      intro st e he
      obtain ⟨q, oldh⟩ := hd
      rw [processTracked] at he
      revert he
      cases hlk : fsLookup fs q with
      | none =>
          dsimp only
          intro he
          rcases List.mem_cons.mp he with rfl | he'
          · simp
          · exact List.mem_cons_of_mem _ (ih _ e he')
      | some fd =>
          dsimp only
          by_cases hch : fileHash fd ≠ oldh
          · rw [if_pos hch]
            dsimp only
            intro he
            rcases List.mem_cons.mp he with rfl | he'
            · simp
            · exact List.mem_cons_of_mem _ (ih _ e he')
          · rw [if_neg hch]
            intro he
            exact List.mem_cons_of_mem _ (ih _ e he)

theorem processTracked_frame (fs : List (String × FileData)) :
    ∀ (entries : List (String × String)) (st : MonitorState) (k : String),
      k ∉ entries.map Prod.fst →
      lookupA (processTracked fs entries st).2.fileHashes k = lookupA st.fileHashes k ∧
      lookupA (processTracked fs entries st).2.contentHashes k = lookupA st.contentHashes k := by
  intro entries
  induction entries with
  | nil => intro st k _; exact ⟨rfl, rfl⟩
  | cons hd rest ih =>
      intro st k hk
      obtain ⟨q, oldh⟩ := hd
      have hq : q ≠ k := by
        intro h
        exact hk (by rw [← h]; simp)
      have hrest : k ∉ rest.map Prod.fst := fun h => hk (List.mem_cons_of_mem _ h)
      rw [processTracked]
      cases hlk : fsLookup fs q with
      | none =>
          dsimp only
          have := ih
            { st with
              fileHashes := eraseA st.fileHashes q
              contentHashes := eraseA st.contentHashes q } k hrest
          rw [this.1, this.2]
          exact ⟨lookupA_eraseA_ne _ _ _ hq, lookupA_eraseA_ne _ _ _ hq⟩
      | some fd =>
          dsimp only
          by_cases hch : fileHash fd ≠ oldh
          · rw [if_pos hch]
            dsimp only
            have := ih
              { st with
                fileHashes := setA st.fileHashes q (fileHash fd)
                contentHashes := setA st.contentHashes q (contentHash fd) } k hrest
            rw [this.1, this.2]
            exact ⟨lookupA_setA_ne _ _ _ _ hq, lookupA_setA_ne _ _ _ _ hq⟩
          · rw [if_neg hch]
            exact ih st k hrest

theorem processTracked_state_at (fs : List (String × FileData)) :
    ∀ (entries : List (String × String)) (st : MonitorState) (p fh : String) (fd : FileData),
      (entries.map Prod.fst).Nodup →
      (p, fh) ∈ entries →
      lookupA st.fileHashes p = some fh →
      fsLookup fs p = some fd →
      lookupA (processTracked fs entries st).2.fileHashes p
        = some (if fileHash fd ≠ fh then fileHash fd else fh) := by
  intro entries
  induction entries with
  | nil => intro st p fh fd _ hmem; simp at hmem
  | cons hd rest ih =>
      intro st p fh fd hnd hmem hlkp hfd
      obtain ⟨q, oldh⟩ := hd
      have hnd1 := (List.pairwise_cons.mp hnd).1
      have hnd2 := (List.pairwise_cons.mp hnd).2
      by_cases hqp : q = p
      · subst hqp
        have hfh : oldh = fh := by
          rcases List.mem_cons.mp hmem with heq | hmem'
          · injection heq with h1 h2
            exact h2.symm
          · exfalso
            exact hnd1 q (List.mem_map.mpr ⟨(q, fh), hmem', rfl⟩) rfl
        subst hfh
        have hrest : q ∉ rest.map Prod.fst := fun h => hnd1 q h rfl
        rw [processTracked, hfd]
        dsimp only
        by_cases hch : fileHash fd ≠ oldh
        · rw [if_pos hch]
          dsimp only
          have hframe := processTracked_frame fs rest
            { st with
              fileHashes := setA st.fileHashes q (fileHash fd)
              contentHashes := setA st.contentHashes q (contentHash fd) } q hrest
          rw [hframe.1]
          rw [if_pos hch]
          exact lookupA_setA_self _ _ _
        · rw [if_neg hch]
          have hframe := processTracked_frame fs rest st q hrest
          rw [hframe.1, if_neg hch]
          exact hlkp
      · have hmem' : (p, fh) ∈ rest := by
          rcases List.mem_cons.mp hmem with heq | hmem'
          · injection heq with h1 h2
            exact absurd h1.symm hqp
          · exact hmem'
        rw [processTracked]
        cases hlk : fsLookup fs q with
        | none =>
            dsimp only
            exact ih
              { st with
                fileHashes := eraseA st.fileHashes q
                contentHashes := eraseA st.contentHashes q }
              p fh fd hnd2 hmem'
              (by rw [lookupA_eraseA_ne _ _ _ hqp]; exact hlkp) hfd
        | some fdq =>
            dsimp only
            by_cases hch : fileHash fdq ≠ oldh
            · rw [if_pos hch]
              dsimp only
              exact ih
                { st with
                  fileHashes := setA st.fileHashes q (fileHash fdq)
                  contentHashes := setA st.contentHashes q (contentHash fdq) }
                p fh fd hnd2 hmem'
                (by rw [lookupA_setA_ne _ _ _ _ hqp]; exact hlkp) hfd
            · rw [if_neg hch]
              exact ih st p fh fd hnd2 hmem' hlkp hfd

theorem processNew_all_added :
    ∀ (entries : List (String × FileData)) (st : MonitorState),
      ∀ e ∈ (processNew entries st).1, e.changeType = ChangeType.fileAdded := by
  intro entries
  induction entries with
  | nil => intro st e he; simp [processNew] at he
  | cons hd rest ih =>
      intro st e he
      obtain ⟨q, fd⟩ := hd
      rw [processNew] at he
      revert he
      by_cases hc : shouldIgnoreFile q = false ∧ lookupA st.fileHashes q = none
      · rw [if_pos hc]
        dsimp only
        intro he
        rcases List.mem_cons.mp he with rfl | he'
        · rfl
        · exact ih _ e he'
      · rw [if_neg hc]
        intro he
        exact ih st e he

theorem processNew_frame_tracked :
    ∀ (entries : List (String × FileData)) (st : MonitorState) (p : String),
      lookupA st.fileHashes p ≠ none →
      (∀ e ∈ (processNew entries st).1, e.filePath ≠ p) ∧
      lookupA (processNew entries st).2.fileHashes p = lookupA st.fileHashes p := by
  intro entries
  induction entries with
  | nil => intro st p _; exact ⟨by simp [processNew], rfl⟩
  | cons hd rest ih =>
      intro st p hp
      obtain ⟨q, fd⟩ := hd
      rw [processNew]
      by_cases hc : shouldIgnoreFile q = false ∧ lookupA st.fileHashes q = none
      · rw [if_pos hc]
        dsimp only
        have hq : q ≠ p := by
          intro h
          rw [h] at hc
          exact hp hc.2
        have hstep := ih (addFileToMonitoring st q fd) p
          (by
            unfold addFileToMonitoring
            rw [lookupA_setA_ne _ _ _ _ hq]
            exact hp)
        refine ⟨?_, ?_⟩
        · intro e he
          rcases List.mem_cons.mp he with rfl | he'
          · exact hq
          · exact hstep.1 e he'
        · rw [hstep.2]
          unfold addFileToMonitoring
          exact lookupA_setA_ne _ _ _ _ hq
      · rw [if_neg hc]
        exact ih st p hp

theorem filter_cons_path_eq (e : ChangeEvent) (L : List ChangeEvent) (p : String)
    (h : e.filePath = p) :
    (e :: L).filter (fun x => decide (x.filePath = p)) =
      e :: L.filter (fun x => decide (x.filePath = p)) := by
  simp [List.filter_cons, h]

theorem filter_cons_path_ne (e : ChangeEvent) (L : List ChangeEvent) (p : String)
    (h : e.filePath ≠ p) :
    (e :: L).filter (fun x => decide (x.filePath = p)) =
      L.filter (fun x => decide (x.filePath = p)) := by
  simp [List.filter_cons, h]

theorem filter_nil_of_paths_ne (L : List ChangeEvent) (p : String)
    (h : ∀ e ∈ L, e.filePath ≠ p) :
    L.filter (fun x => decide (x.filePath = p)) = [] := by
  induction L with
  | nil => rfl
  | cons e rest ih =>
      rw [filter_cons_path_ne e rest p (h e (List.mem_cons_self _ _))]
      exact ih (fun e' he' => h e' (List.mem_cons_of_mem _ he'))

theorem processTracked_filter (fs : List (String × FileData)) :
    ∀ (entries : List (String × String)) (st : MonitorState) (p fh : String) (fd : FileData),
      (entries.map Prod.fst).Nodup →
      (p, fh) ∈ entries →
      fsLookup fs p = some fd →
      (processTracked fs entries st).1.filter (fun e => decide (e.filePath = p)) =
        (if fileHash fd ≠ fh then
          [{ changeType :=
               if contentHash fd ≠ (lookupA st.contentHashes p).getD "" then
                 ChangeType.contentChanged
               else ChangeType.fileModified,
             filePath := p, oldHash := some fh, newHash := some (fileHash fd),
             description := "Arquivo modificado: " ++ p,
             impactLevel :=
               if (if contentHash fd ≠ (lookupA st.contentHashes p).getD "" then
                     ChangeType.contentChanged
                   else ChangeType.fileModified) = ChangeType.contentChanged then "high"
               else "medium" }]
        else []) := by
  intro entries
  induction entries with
  | nil => intro st p fh fd _ hmem; simp at hmem
  | cons hd rest ih =>
      intro st p fh fd hnd hmem hfd
      obtain ⟨q, oldh⟩ := hd
      have hnd1 := (List.pairwise_cons.mp hnd).1
      have hnd2 := (List.pairwise_cons.mp hnd).2
      by_cases hqp : q = p
      · subst hqp
        have hfh : oldh = fh := by
          rcases List.mem_cons.mp hmem with heq | hmem'
          · injection heq with h1 h2
            exact h2.symm
          · exfalso
            exact hnd1 q (List.mem_map.mpr ⟨(q, fh), hmem', rfl⟩) rfl
        subst hfh
        have hrest : q ∉ rest.map Prod.fst := fun h => hnd1 q h rfl
        rw [processTracked, hfd]
        dsimp only
        by_cases hch : fileHash fd ≠ oldh
        · rw [if_pos hch, if_pos hch]
          dsimp only
          rw [List.filter_cons]
          dsimp only
          rw [if_pos (by simp : (decide (q = q)) = true)]
          have hnil := filter_nil_of_paths_ne
            (processTracked fs rest
              { st with
                fileHashes := setA st.fileHashes q (fileHash fd)
                contentHashes := setA st.contentHashes q (contentHash fd) }).1 q
            (fun e he hep => hrest (hep ▸ processTracked_event_paths fs rest _ e he))
          rw [hnil]
        · rw [if_neg hch, if_neg hch]
          exact filter_nil_of_paths_ne _ q
            (fun e he hep => hrest (hep ▸ processTracked_event_paths fs rest st e he))
      · have hmem' : (p, fh) ∈ rest := by
          rcases List.mem_cons.mp hmem with heq | hmem'
          · injection heq with h1 h2
            exact absurd h1.symm hqp
          · exact hmem'
        rw [processTracked]
        cases hlk : fsLookup fs q with
        | none =>
            dsimp only
            rw [List.filter_cons]
            dsimp only
            rw [if_neg (by simp [hqp] : ¬ ((decide (q = p)) = true))]
            have hst' : lookupA (eraseA st.contentHashes q) p = lookupA st.contentHashes p :=
              lookupA_eraseA_ne _ _ _ hqp
            rw [ih
              { st with
                fileHashes := eraseA st.fileHashes q
                contentHashes := eraseA st.contentHashes q }
              p fh fd hnd2 hmem' hfd]
            rw [show lookupA ({ st with
                fileHashes := eraseA st.fileHashes q
                contentHashes := eraseA st.contentHashes q } : MonitorState).contentHashes p
              = lookupA st.contentHashes p from hst']
        | some fdq =>
            dsimp only
            by_cases hch : fileHash fdq ≠ oldh
            · rw [if_pos hch]
              dsimp only
              rw [List.filter_cons]
              dsimp only
              rw [if_neg (by simp [hqp] : ¬ ((decide (q = p)) = true))]
              have hst' : lookupA (setA st.contentHashes q (contentHash fdq)) p
                  = lookupA st.contentHashes p := lookupA_setA_ne _ _ _ _ hqp
              rw [ih
                { st with
                  fileHashes := setA st.fileHashes q (fileHash fdq)
                  contentHashes := setA st.contentHashes q (contentHash fdq) }
                p fh fd hnd2 hmem' hfd]
              rw [show lookupA ({ st with
                  fileHashes := setA st.fileHashes q (fileHash fdq)
                  contentHashes := setA st.contentHashes q (contentHash fdq) } : MonitorState).contentHashes p
                = lookupA st.contentHashes p from hst']
            · rw [if_neg hch]
              exact ih st p fh fd hnd2 hmem' hfd

theorem processTracked_modified (fs : List (String × FileData)) :
    ∀ (entries : List (String × String)) (st : MonitorState)
      (m₀ : List (String × String)),
      (entries.map Prod.fst).Nodup →
      (∀ q ∈ entries.map Prod.fst, lookupA st.contentHashes q = lookupA m₀ q) →
      ∀ e ∈ (processTracked fs entries st).1, e.changeType = ChangeType.fileModified →
        e.impactLevel = "medium" ∧
        ∃ fh fd, (e.filePath, fh) ∈ entries ∧ fsLookup fs e.filePath = some fd ∧
          fileHash fd ≠ fh ∧ contentHash fd = (lookupA m₀ e.filePath).getD "" := by
  intro entries
  induction entries with
  | nil => intro st m₀ _ _ e he; simp [processTracked] at he
  | cons hd rest ih =>
      intro st m₀ hnd hagree e he htype
      obtain ⟨q, oldh⟩ := hd
      have hnd1 := (List.pairwise_cons.mp hnd).1
      have hnd2 := (List.pairwise_cons.mp hnd).2
      have hagq : lookupA st.contentHashes q = lookupA m₀ q :=
        hagree q (by simp)
      rw [processTracked] at he
      revert he
      cases hlk : fsLookup fs q with
      | none =>
          dsimp only
          intro he
          rcases List.mem_cons.mp he with rfl | he'
          · exact absurd htype (by simp)
          · have hag2 : ∀ q' ∈ rest.map Prod.fst,
                lookupA (eraseA st.contentHashes q) q' = lookupA m₀ q' := by
              intro q' hq'
              have hne : q ≠ q' := fun h => hnd1 q' hq' h
              rw [lookupA_eraseA_ne _ _ _ hne]
              exact hagree q' (List.mem_cons_of_mem _ hq')
            have := ih
              { st with
                fileHashes := eraseA st.fileHashes q
                contentHashes := eraseA st.contentHashes q }
              m₀ hnd2 hag2 e he' htype
            exact ⟨this.1, this.2.imp (fun fh h => h.imp
              (fun fd hh => ⟨List.mem_cons_of_mem _ hh.1, hh.2⟩))⟩
      | some fd =>
          dsimp only
          by_cases hch : fileHash fd ≠ oldh
          · rw [if_pos hch]
            dsimp only
            intro he
            rcases List.mem_cons.mp he with rfl | he'
            · dsimp only at htype ⊢
              by_cases hc : contentHash fd ≠ (lookupA st.contentHashes q).getD ""
              · rw [if_pos hc] at htype
                exact absurd htype (by simp)
              · rw [if_neg hc] at htype ⊢
                refine ⟨by simp, oldh, fd, List.mem_cons_self _ _, hlk, hch, ?_⟩
                push_neg at hc
                rw [hc, hagq]
            · have hag2 : ∀ q' ∈ rest.map Prod.fst,
                  lookupA (setA st.contentHashes q (contentHash fd)) q'
                    = lookupA m₀ q' := by
                intro q' hq'
                have hne : q ≠ q' := fun h => hnd1 q' hq' h
                rw [lookupA_setA_ne _ _ _ _ hne]
                exact hagree q' (List.mem_cons_of_mem _ hq')
              have := ih
                { st with
                  fileHashes := setA st.fileHashes q (fileHash fd)
                  contentHashes := setA st.contentHashes q (contentHash fd) }
                m₀ hnd2 hag2 e he' htype
              exact ⟨this.1, this.2.imp (fun fh h => h.imp
                (fun fd' hh => ⟨List.mem_cons_of_mem _ hh.1, hh.2⟩))⟩
          · rw [if_neg hch]
            intro he
            have := ih st m₀ hnd2
              (fun q' hq' => hagree q' (List.mem_cons_of_mem _ hq')) e he htype
            exact ⟨this.1, this.2.imp (fun fh h => h.imp
              (fun fd' hh => ⟨List.mem_cons_of_mem _ hh.1, hh.2⟩))⟩

theorem detect_filter_at (st : MonitorState) (fs : List (String × FileData))
    (p fh : String) (fd : FileData)
    (hnd : (st.fileHashes.map Prod.fst).Nodup)
    (hfh : lookupA st.fileHashes p = some fh)
    (hfd : fsLookup fs p = some fd)
    (hne : p ≠ "") :
    (detect st fs).1.filter (fun e => decide (e.filePath = p)) =
      (if fileHash fd ≠ fh then
        [{ changeType :=
             if contentHash fd ≠ (lookupA st.contentHashes p).getD "" then
               ChangeType.contentChanged
             else ChangeType.fileModified,
           filePath := p, oldHash := some fh, newHash := some (fileHash fd),
           description := "Arquivo modificado: " ++ p,
           impactLevel :=
             if (if contentHash fd ≠ (lookupA st.contentHashes p).getD "" then
                   ChangeType.contentChanged
                 else ChangeType.fileModified) = ChangeType.contentChanged then "high"
             else "medium" }]
      else []) ∧
    lookupA (detect st fs).2.fileHashes p
      = some (if fileHash fd ≠ fh then fileHash fd else fh) := by
  have hmem : (p, fh) ∈ st.fileHashes := mem_of_lookupA_some _ _ _ hfh
  have h1 := processTracked_filter fs st.fileHashes st p fh fd hnd hmem hfd
  have hstate := processTracked_state_at fs st.fileHashes st p fh fd hnd hmem hfh hfd
  have htracked_ne : lookupA (processTracked fs st.fileHashes st).2.fileHashes p ≠ none := by
    rw [hstate]; simp
  have h2 := processNew_frame_tracked fs (processTracked fs st.fileHashes st).2 p htracked_ne
  constructor
  · rw [detect]
    dsimp only
    rw [List.filter_append, List.filter_append]
    rw [h1, filter_nil_of_paths_ne _ p h2.1]
    have h3 : (if (updateStructureHash
          (processNew fs (processTracked fs st.fileHashes st).2).2).structureHash
          ≠ st.structureHash then
        ([{ changeType := ChangeType.structureChanged, filePath := "",
            oldHash := some st.structureHash,
            newHash := some (updateStructureHash
              (processNew fs (processTracked fs st.fileHashes st).2).2).structureHash,
            description := "Estrutura de arquivos alterada",
            impactLevel := "high" }] : List ChangeEvent)
      else []).filter (fun e => decide (e.filePath = p)) = [] := by
      by_cases hs : (updateStructureHash
          (processNew fs (processTracked fs st.fileHashes st).2).2).structureHash
          ≠ st.structureHash
      · rw [if_pos hs]
        exact filter_nil_of_paths_ne _ p
          (by
            intro e he
            rcases List.mem_singleton.mp he with rfl
            exact fun hh => hne hh.symm)
      · rw [if_neg hs]
        rfl
    rw [h3]
    simp
  · rw [detect]
    dsimp only
    rw [show (updateStructureHash
        (processNew fs (processTracked fs st.fileHashes st).2).2).fileHashes
      = (processNew fs (processTracked fs st.fileHashes st).2).2.fileHashes from rfl]
    rw [h2.2, hstate]

theorem detect_modified_only (st : MonitorState) (fs : List (String × FileData))
    (hnd : (st.fileHashes.map Prod.fst).Nodup) :
    ∀ e ∈ (detect st fs).1, e.changeType = ChangeType.fileModified →
      e.impactLevel = "medium" ∧
      ∃ fh' fd', lookupA st.fileHashes e.filePath = some fh' ∧
        fsLookup fs e.filePath = some fd' ∧ fileHash fd' ≠ fh' ∧
        contentHash fd' = (lookupA st.contentHashes e.filePath).getD "" := by
  intro e he htype
  rw [detect] at he
  dsimp only at he
  rcases List.mem_append.mp he with he' | he'
  · rcases List.mem_append.mp he' with he'' | he''
    · have hm := processTracked_modified fs st.fileHashes st st.contentHashes hnd
        (fun q _ => rfl) e he'' htype
      refine ⟨hm.1, ?_⟩
      obtain ⟨fh', fd', hmem', hfd', hne', hc'⟩ := hm.2
      exact ⟨fh', fd', lookupA_eq_of_mem_nodup _ _ _ hnd hmem', hfd', hne', hc'⟩
    · have := processNew_all_added fs (processTracked fs st.fileHashes st).2 e he''
      rw [this] at htype
      exact absurd htype (by simp)
  · by_cases hs : (updateStructureHash
        (processNew fs (processTracked fs st.fileHashes st).2).2).structureHash
        ≠ st.structureHash
    · rw [if_pos hs] at he'
      rcases List.mem_singleton.mp he' with rfl
      simp at htype
    · rw [if_neg hs] at he'
      simp at he'

theorem detect_filter_contentChanged (st : MonitorState) (fs : List (String × FileData))
    (p fh ch : String) (fd : FileData)
    (hnd : (st.fileHashes.map Prod.fst).Nodup)
    (hfh : lookupA st.fileHashes p = some fh)
    (hch : lookupA st.contentHashes p = some ch)
    (hfd : fsLookup fs p = some fd)
    (hne : p ≠ "")
    (h1 : fileHash fd ≠ fh)
    (h2 : contentHash fd ≠ ch) :
    (detect st fs).1.filter (fun e => decide (e.filePath = p)) =
      [{ changeType := ChangeType.contentChanged, filePath := p, oldHash := some fh,
         newHash := some (fileHash fd), description := "Arquivo modificado: " ++ p,
         impactLevel := "high" }] := by
  have hflt := (detect_filter_at st fs p fh fd hnd hfh hfd hne).1
  rw [hflt, if_pos h1]
  have hgd : (lookupA st.contentHashes p).getD "" = ch := by rw [hch]; rfl
  rw [hgd, if_pos h2]
  simp

/-- C4 (amended): for a tracked path whose metadata hash changed and whose
content hash changed, `detect` emits exactly one event for that path — a
`ContentChanged` event with impact `high` — and a `Modified` event (impact
`medium`) is only ever emitted for a path whose metadata hash differs while
its recomputed content hash equals the stored one.  (A content change that
leaves size/mtime/ctime unchanged emits no event at all, see the
counterexample.) -/
theorem detect_content_changed_events (st : MonitorState) (fs : List (String × FileData))
    (p fh ch : String) (fd : FileData)
    (hnd : (st.fileHashes.map Prod.fst).Nodup)
    (hfh : lookupA st.fileHashes p = some fh)
    (hch : lookupA st.contentHashes p = some ch)
    (hfd : fsLookup fs p = some fd)
    (hne : p ≠ "")
    (h1 : fileHash fd ≠ fh)
    (h2 : contentHash fd ≠ ch) :
    (detect st fs).1.filter (fun e => decide (e.filePath = p)) =
      [{ changeType := ChangeType.contentChanged, filePath := p, oldHash := some fh,
         newHash := some (fileHash fd), description := "Arquivo modificado: " ++ p,
         impactLevel := "high" }] ∧
    ∀ e ∈ (detect st fs).1, e.changeType = ChangeType.fileModified →
      e.impactLevel = "medium" ∧
      ∃ fh' fd', lookupA st.fileHashes e.filePath = some fh' ∧
        fsLookup fs e.filePath = some fd' ∧ fileHash fd' ≠ fh' ∧
        contentHash fd' = (lookupA st.contentHashes e.filePath).getD "" :=
  ⟨detect_filter_contentChanged st fs p fh ch fd hnd hfh hch hfd hne h1 h2,
   detect_modified_only st fs hnd⟩

/-- C2 (amended): when both `os.stat` and the content read fail for a tracked
file that still exists, the errors are swallowed (the hash helpers return
`""`) and the scan completes — but the file is NOT treated as unchanged: the
empty hash differs from the stored one, so a `ContentChanged` event (impact
`high`, new hash `""`) is emitted for it and the stored metadata hash becomes
`""`. -/
theorem detect_io_failure_event (st : MonitorState) (fs : List (String × FileData))
    (p fh ch : String) (fd : FileData)
    (hnd : (st.fileHashes.map Prod.fst).Nodup)
    (hfh : lookupA st.fileHashes p = some fh)
    (hch : lookupA st.contentHashes p = some ch)
    (hfd : fsLookup fs p = some fd)
    (hne : p ≠ "")
    (hm : fd.metaOk = false)
    (hr : fd.readOk = false)
    (hfh0 : fh ≠ "")
    (hch0 : ch ≠ "") :
    (detect st fs).1.filter (fun e => decide (e.filePath = p)) =
      [{ changeType := ChangeType.contentChanged, filePath := p, oldHash := some fh,
         newHash := some "", description := "Arquivo modificado: " ++ p,
         impactLevel := "high" }] ∧
    lookupA (detect st fs).2.fileHashes p = some "" := by
  have hfe : fileHash fd = "" := by unfold fileHash; rw [hm]; rfl
  have hce : contentHash fd = "" := by unfold contentHash; rw [hr]; rfl
  have h1 : fileHash fd ≠ fh := by rw [hfe]; exact Ne.symm hfh0
  have h2 : contentHash fd ≠ ch := by rw [hce]; exact Ne.symm hch0
  constructor
  · have := detect_filter_contentChanged st fs p fh ch fd hnd hfh hch hfd hne h1 h2
    rw [this, hfe]
  · have := (detect_filter_at st fs p fh fd hnd hfh hfd hne).2
    rw [this, if_pos h1, hfe]

/-- C4 counterexample: the byte content of the tracked file changes between
two `detect()` calls ("ca" → "cb", same length) while mtime and ctime stay
put, so the metadata hash is unchanged — and `detect` emits no event at all
(in particular no `ContentChanged` event). -/
theorem content_change_same_metadata_no_event :
    ("cb" : String) ≠ "ca" ∧
    (detect
      (detect (initMonitor [("a.md", ⟨true, true, 5, 7, "ca"⟩)])
        [("a.md", ⟨true, true, 5, 7, "ca"⟩)]).2
      [("a.md", ⟨true, true, 5, 7, "cb"⟩)]).1 = [] := by
  decide

/-- Witness for C4 (amended) at a concrete tracked file whose mtime and
content both changed. -/
theorem detect_content_changed_events_witness :
    ((((⟨[("a.md", md5 "2_5_7")], [("a.md", md5 "ca")], md5 "a.md"⟩ :
        MonitorState).fileHashes.map Prod.fst).Nodup) ∧
      lookupA (⟨[("a.md", md5 "2_5_7")], [("a.md", md5 "ca")], md5 "a.md"⟩ :
        MonitorState).fileHashes "a.md" = some (md5 "2_5_7") ∧
      lookupA (⟨[("a.md", md5 "2_5_7")], [("a.md", md5 "ca")], md5 "a.md"⟩ :
        MonitorState).contentHashes "a.md" = some (md5 "ca") ∧
      fsLookup [("a.md", (⟨true, true, 6, 7, "cb"⟩ : FileData))] "a.md"
        = some ⟨true, true, 6, 7, "cb"⟩ ∧
      ("a.md" : String) ≠ "" ∧
      fileHash (⟨true, true, 6, 7, "cb"⟩ : FileData) ≠ md5 "2_5_7" ∧
      contentHash (⟨true, true, 6, 7, "cb"⟩ : FileData) ≠ md5 "ca") ∧
    ((detect (⟨[("a.md", md5 "2_5_7")], [("a.md", md5 "ca")], md5 "a.md"⟩ :
          MonitorState)
        [("a.md", ⟨true, true, 6, 7, "cb"⟩)]).1.filter
          (fun e => decide (e.filePath = "a.md")) =
      [{ changeType := ChangeType.contentChanged, filePath := "a.md",
         oldHash := some (md5 "2_5_7"),
         newHash := some (fileHash (⟨true, true, 6, 7, "cb"⟩ : FileData)),
         description := "Arquivo modificado: " ++ "a.md",
         impactLevel := "high" }] ∧
      ∀ e ∈ (detect (⟨[("a.md", md5 "2_5_7")], [("a.md", md5 "ca")], md5 "a.md"⟩ :
          MonitorState)
        [("a.md", ⟨true, true, 6, 7, "cb"⟩)]).1,
        e.changeType = ChangeType.fileModified →
        e.impactLevel = "medium" ∧
        ∃ fh' fd',
          lookupA (⟨[("a.md", md5 "2_5_7")], [("a.md", md5 "ca")], md5 "a.md"⟩ :
            MonitorState).fileHashes e.filePath = some fh' ∧
          fsLookup [("a.md", (⟨true, true, 6, 7, "cb"⟩ : FileData))] e.filePath
            = some fd' ∧
          fileHash fd' ≠ fh' ∧
          contentHash fd' =
            (lookupA (⟨[("a.md", md5 "2_5_7")], [("a.md", md5 "ca")], md5 "a.md"⟩ :
              MonitorState).contentHashes e.filePath).getD "") :=
  ⟨⟨by decide, by decide, by decide, by decide, by decide, by decide, by decide⟩,
    detect_content_changed_events
      (⟨[("a.md", md5 "2_5_7")], [("a.md", md5 "ca")], md5 "a.md"⟩ : MonitorState)
      [("a.md", ⟨true, true, 6, 7, "cb"⟩)]
      "a.md" (md5 "2_5_7") (md5 "ca") ⟨true, true, 6, 7, "cb"⟩
      (by decide) (by decide) (by decide) (by decide) (by decide) (by decide)
      (by decide)⟩

/-- C2 counterexample: hashing a still-existing tracked file fails
(`metaOk = readOk = false`, the `except` branches), yet `detect` does not
treat the file as unchanged — it emits a `ContentChanged` event for it. -/
theorem io_failure_emits_event_cex :
    (fsLookup [("a.md", (⟨false, false, 5, 7, "ca"⟩ : FileData))] "a.md").isSome
      = true ∧
    ((detect
        (detect (initMonitor [("a.md", ⟨true, true, 5, 7, "ca"⟩)])
          [("a.md", ⟨true, true, 5, 7, "ca"⟩)]).2
        [("a.md", ⟨false, false, 5, 7, "ca"⟩)]).1.map
      (fun e => (e.changeType, e.filePath, e.impactLevel))) =
      [(ChangeType.contentChanged, "a.md", "high")] := by
  decide

/-- Witness for C2 (amended) at a concrete unreadable-but-existing file. -/
theorem detect_io_failure_event_witness :
    ((((⟨[("b.md", md5 "2_5_7")], [("b.md", md5 "ca")], md5 "b.md"⟩ :
        MonitorState).fileHashes.map Prod.fst).Nodup) ∧
      lookupA (⟨[("b.md", md5 "2_5_7")], [("b.md", md5 "ca")], md5 "b.md"⟩ :
        MonitorState).fileHashes "b.md" = some (md5 "2_5_7") ∧
      lookupA (⟨[("b.md", md5 "2_5_7")], [("b.md", md5 "ca")], md5 "b.md"⟩ :
        MonitorState).contentHashes "b.md" = some (md5 "ca") ∧
      fsLookup [("b.md", (⟨false, false, 5, 7, "ca"⟩ : FileData))] "b.md"
        = some ⟨false, false, 5, 7, "ca"⟩ ∧
      ("b.md" : String) ≠ "" ∧
      (⟨false, false, 5, 7, "ca"⟩ : FileData).metaOk = false ∧
      (⟨false, false, 5, 7, "ca"⟩ : FileData).readOk = false ∧
      (md5 "2_5_7" : String) ≠ "" ∧
      (md5 "ca" : String) ≠ "") ∧
    ((detect (⟨[("b.md", md5 "2_5_7")], [("b.md", md5 "ca")], md5 "b.md"⟩ :
          MonitorState)
        [("b.md", ⟨false, false, 5, 7, "ca"⟩)]).1.filter
          (fun e => decide (e.filePath = "b.md")) =
      [{ changeType := ChangeType.contentChanged, filePath := "b.md",
         oldHash := some (md5 "2_5_7"), newHash := some "",
         description := "Arquivo modificado: " ++ "b.md",
         impactLevel := "high" }] ∧
      lookupA (detect (⟨[("b.md", md5 "2_5_7")], [("b.md", md5 "ca")], md5 "b.md"⟩ :
          MonitorState)
        [("b.md", ⟨false, false, 5, 7, "ca"⟩)]).2.fileHashes "b.md" = some "") :=
  ⟨⟨by decide, by decide, by decide, by decide, by decide, by decide, by decide,
    by decide, by decide⟩,
    detect_io_failure_event
      (⟨[("b.md", md5 "2_5_7")], [("b.md", md5 "ca")], md5 "b.md"⟩ : MonitorState)
      [("b.md", ⟨false, false, 5, 7, "ca"⟩)]
      "b.md" (md5 "2_5_7") (md5 "ca") ⟨false, false, 5, 7, "ca"⟩
      (by decide) (by decide) (by decide) (by decide) (by decide) (by decide)
      (by decide) (by decide) (by decide)⟩

end Monitor

namespace Impact

/-! ### C1/C3: the fuel-based closure computes exactly transitive reachability -/

theorem reachStep_cons (e : String × String) (es : List (String × String))
    (r : List String) :
    reachStep (e :: es) r = reachStep es (if e.1 ∈ r then r.insert e.2 else r) := rfl

theorem reachStep_subset (edges : List (String × String)) :
    ∀ (r : List String) (x : String), x ∈ r → x ∈ reachStep edges r := by
  induction edges with
  | nil => intro r x hx; exact hx
  | cons e es ih =>
      intro r x hx
      rw [reachStep_cons]
      apply ih
      by_cases hc : e.1 ∈ r
      · rw [if_pos hc]
        exact List.mem_insert_of_mem hx
      · rw [if_neg hc]
        exact hx

theorem reachStep_closed :
    ∀ (es : List (String × String)) (r : List String) (e : String × String),
      e ∈ es → e.1 ∈ r → e.2 ∈ reachStep es r := by
  intro es
  induction es with
  | nil => intro r e he; simp at he
  | cons e₀ es ih =>
      intro r e he h1
      rw [reachStep_cons]
      rcases List.mem_cons.mp he with rfl | he'
      · rw [if_pos h1]
        exact reachStep_subset es _ _ (List.mem_insert_self _ _)
      · apply ih _ e he'
        by_cases hc : e₀.1 ∈ r
        · rw [if_pos hc]
          exact List.mem_insert_of_mem h1
        · rw [if_neg hc]
          exact h1

theorem reachStep_congr (edges : List (String × String)) :
    ∀ (r1 r2 : List String), (∀ y, y ∈ r1 ↔ y ∈ r2) →
      ∀ x, x ∈ reachStep edges r1 ↔ x ∈ reachStep edges r2 := by
  induction edges with
  | nil => intro r1 r2 h x; exact h x
  | cons e es ih =>
      intro r1 r2 h x
      rw [reachStep_cons, reachStep_cons]
      apply ih
      intro y
      by_cases hc : e.1 ∈ r1
      · rw [if_pos hc, if_pos ((h e.1).mp hc)]
        simp only [List.mem_insert_iff]
        exact or_congr Iff.rfl (h y)
      · rw [if_neg hc, if_neg (fun hc2 => hc ((h e.1).mpr hc2))]
        exact h y

theorem reachStep_sound (E : List (String × String)) (f : String) :
    ∀ (es : List (String × String)), es ⊆ E →
      ∀ (r : List String),
        (∀ y ∈ r, Relation.ReflTransGen (fun a b => (a, b) ∈ E) f y) →
        ∀ x ∈ reachStep es r, Relation.ReflTransGen (fun a b => (a, b) ∈ E) f x := by
  intro es
  induction es with
  | nil => intro _ r hr x hx; exact hr x hx
  | cons e es ih =>
      intro hsub r hr x hx
      rw [reachStep_cons] at hx
      refine ih (fun a ha => hsub (List.mem_cons_of_mem _ ha)) _ ?_ x hx
      intro y hy
      by_cases hc : e.1 ∈ r
      · rw [if_pos hc] at hy
        rcases List.mem_insert_iff.mp hy with rfl | hy'
        · exact (hr e.1 hc).tail (hsub (List.mem_cons_self _ _))
        · exact hr y hy'
      · rw [if_neg hc] at hy
        exact hr y hy

theorem reachStep_subset_targets (edges : List (String × String)) :
    ∀ (r : List String) (x : String), x ∈ reachStep edges r →
      x ∈ r ∨ x ∈ edges.map Prod.snd := by
  induction edges with
  | nil => intro r x hx; exact Or.inl hx
  | cons e es ih =>
      intro r x hx
      rw [reachStep_cons] at hx
      rcases ih _ x hx with hx' | hx'
      · by_cases hc : e.1 ∈ r
        · rw [if_pos hc] at hx'
          rcases List.mem_insert_iff.mp hx' with rfl | hx''
          · exact Or.inr (by simp)
          · exact Or.inl hx''
        · rw [if_neg hc] at hx'
          exact Or.inl hx'
      · exact Or.inr (List.mem_cons_of_mem _ (by simpa using hx'))

theorem reachIter_succ (edges : List (String × String)) (f : String) (k : Nat) :
    (reachStep edges)^[k + 1] [f] = reachStep edges ((reachStep edges)^[k] [f]) :=
  Function.iterate_succ_apply' _ _ _

theorem reachIter_mono (edges : List (String × String)) (f : String) (k : Nat) :
    ∀ x ∈ (reachStep edges)^[k] [f], x ∈ (reachStep edges)^[k + 1] [f] := by
  intro x hx
  rw [reachIter_succ]
  exact reachStep_subset edges _ x hx

theorem reachIter_sound (edges : List (String × String)) (f : String) :
    ∀ (k : Nat) (x : String), x ∈ (reachStep edges)^[k] [f] →
      Relation.ReflTransGen (fun a b => (a, b) ∈ edges) f x := by
  intro k
  induction k with
  | zero =>
      intro x hx
      rcases List.mem_singleton.mp hx with rfl
      exact Relation.ReflTransGen.refl
  | succ k ih =>
      intro x hx
      rw [reachIter_succ] at hx
      exact reachStep_sound edges f edges (fun a ha => ha) _ ih x hx

theorem reachIter_subset_nodes (edges : List (String × String)) (f : String) :
    ∀ (k : Nat) (x : String), x ∈ (reachStep edges)^[k] [f] →
      x ∈ f :: edges.map Prod.snd := by
  intro k
  induction k with
  | zero =>
      intro x hx
      rcases List.mem_singleton.mp hx with rfl
      exact List.mem_cons_self _ _
  | succ k ih =>
      intro x hx
      rw [reachIter_succ] at hx
      rcases reachStep_subset_targets edges _ x hx with hx' | hx'
      · exact ih x hx'
      · exact List.mem_cons_of_mem _ hx'

theorem reachIter_stable_exists (edges : List (String × String)) (f : String) :
    ∃ k ≤ edges.length,
      ∀ y, y ∈ (reachStep edges)^[k + 1] [f] ↔ y ∈ (reachStep edges)^[k] [f] := by
  by_contra hno
  push_neg at hno
  have hgrow : ∀ k, k ≤ edges.length →
      ((reachStep edges)^[k] [f]).toFinset.card <
        ((reachStep edges)^[k + 1] [f]).toFinset.card := by
    intro k hk
    obtain ⟨y, hy⟩ := hno k hk
    have hsub : ((reachStep edges)^[k] [f]).toFinset ⊆
        ((reachStep edges)^[k + 1] [f]).toFinset := by
      intro a ha
      rw [List.mem_toFinset] at *
      exact reachIter_mono edges f k a ha
    have hyk : y ∈ (reachStep edges)^[k + 1] [f] ∧ y ∉ (reachStep edges)^[k] [f] := by
      rcases hy with ⟨h1, h2⟩ | ⟨h1, h2⟩
      · exact ⟨h1, h2⟩
      · exact absurd (reachIter_mono edges f k y h2) h1
    apply Finset.card_lt_card
    refine ⟨hsub, ?_⟩
    intro hsub'
    exact hyk.2 (List.mem_toFinset.mp (hsub' (List.mem_toFinset.mpr hyk.1)))
  have hlow : ∀ k, k ≤ edges.length + 1 →
      k + 1 ≤ ((reachStep edges)^[k] [f]).toFinset.card := by
    intro k
    induction k with
    | zero => intro _; simp
    | succ k ih =>
        intro hk
        have h1 := ih (by omega)
        have h2 := hgrow k (by omega)
        omega
  have hbound : ((reachStep edges)^[edges.length + 1] [f]).toFinset.card ≤
      edges.length + 1 := by
    calc ((reachStep edges)^[edges.length + 1] [f]).toFinset.card
        ≤ (f :: edges.map Prod.snd).toFinset.card := by
          apply Finset.card_le_card
          intro a ha
          rw [List.mem_toFinset] at *
          exact reachIter_subset_nodes edges f _ a ha
      _ ≤ (f :: edges.map Prod.snd).length := List.toFinset_card_le _
      _ = edges.length + 1 := by simp
  have := hlow (edges.length + 1) (by omega)
  omega

theorem reachIter_stable_propagates (edges : List (String × String)) (f : String)
    (k : Nat)
    (hst : ∀ y, y ∈ (reachStep edges)^[k + 1] [f] ↔ y ∈ (reachStep edges)^[k] [f]) :
    ∀ j, k ≤ j → ∀ y, y ∈ (reachStep edges)^[j] [f] ↔ y ∈ (reachStep edges)^[k] [f] := by
  intro j
  induction j with
  | zero =>
      intro hj
      have : k = 0 := by omega
      subst this
      intro y; exact Iff.rfl
  | succ j ih =>
      intro hj y
      rcases Nat.lt_or_ge k (j + 1) with hlt | hge
      · have hkj : k ≤ j := by omega
        have hmid := ih hkj
        calc y ∈ (reachStep edges)^[j + 1] [f]
            ↔ y ∈ reachStep edges ((reachStep edges)^[j] [f]) := by rw [reachIter_succ]
          _ ↔ y ∈ reachStep edges ((reachStep edges)^[k] [f]) :=
              reachStep_congr edges _ _ hmid y
          _ ↔ y ∈ (reachStep edges)^[k + 1] [f] := by rw [reachIter_succ]
          _ ↔ y ∈ (reachStep edges)^[k] [f] := hst y
      · have : k = j + 1 := by omega
        subst this
        exact Iff.rfl

theorem mem_reachSet_iff (edges : List (String × String)) (f x : String) :
    x ∈ reachSet edges f ↔
      Relation.ReflTransGen (fun a b => (a, b) ∈ edges) f x := by
  constructor
  · intro hx
    exact reachIter_sound edges f _ x hx
  · intro hr
    obtain ⟨k, hk, hst⟩ := reachIter_stable_exists edges f
    have hprop := reachIter_stable_propagates edges f k hst (edges.length + 1) (by omega)
    have hf : ∀ j, f ∈ (reachStep edges)^[j] [f] := by
      intro j
      induction j with
      | zero => simp
      | succ j ih => exact reachIter_mono edges f j f ih
    have hclosed : ∀ e ∈ edges, e.1 ∈ (reachStep edges)^[k] [f] →
        e.2 ∈ (reachStep edges)^[k] [f] := by
      intro e he h1
      have := reachStep_closed edges _ e he h1
      rw [← reachIter_succ] at this
      exact (hst e.2).mp this
    have hxk : x ∈ (reachStep edges)^[k] [f] := by
      induction hr with
      | refl => exact hf k
      | tail hab hbc ih => exact hclosed _ hbc ih
    unfold reachSet
    exact (hprop x).mpr hxk

theorem mem_innerFold (f src : String) (l : List Dependency) :
    ∀ (acc : List String) (x : String),
      (x ∈ l.foldl
        (fun acc d => if d.targetFile = f then acc.insert src else acc) acc) ↔
      (x ∈ acc ∨ (x = src ∧ ∃ d ∈ l, d.targetFile = f)) := by
  induction l with
  | nil => intro acc x; simp
  | cons d ds ih =>
      intro acc x
      rw [List.foldl_cons]
      by_cases hd : d.targetFile = f
      · rw [if_pos hd, ih]
        simp only [List.mem_insert_iff, List.mem_cons]
        constructor
        · rintro ((rfl | hacc) | ⟨rfl, hex⟩)
          · exact Or.inr ⟨rfl, d, Or.inl rfl, hd⟩
          · exact Or.inl hacc
          · obtain ⟨d', hd', ht⟩ := hex
            exact Or.inr ⟨rfl, d', Or.inr hd', ht⟩
        · rintro (hacc | ⟨rfl, _⟩)
          · exact Or.inl (Or.inr hacc)
          · exact Or.inl (Or.inl rfl)
      · rw [if_neg hd, ih]
        constructor
        · rintro (hacc | ⟨rfl, d', hd', ht⟩)
          · exact Or.inl hacc
          · exact Or.inr ⟨rfl, d', List.mem_cons_of_mem _ hd', ht⟩
        · rintro (hacc | ⟨rfl, d', hd', ht⟩)
          · exact Or.inl hacc
          · rcases List.mem_cons.mp hd' with rfl | hd''
            · exact absurd ht hd
            · exact Or.inr ⟨rfl, d', hd'', ht⟩

theorem mem_revFold (f : String) (deps : List (String × List Dependency)) :
    ∀ (acc : List String) (x : String),
      (x ∈ deps.foldl
        (fun acc entry => entry.2.foldl
          (fun acc d => if d.targetFile = f then acc.insert entry.1 else acc) acc)
        acc) ↔
      (x ∈ acc ∨ ∃ l, (x, l) ∈ deps ∧ ∃ d ∈ l, d.targetFile = f) := by
  induction deps with
  | nil => intro acc x; simp
  | cons e es ih =>
      intro acc x
      rw [List.foldl_cons, ih, mem_innerFold]
      constructor
      · rintro ((hacc | ⟨rfl, hex⟩) | ⟨l, hl, hex⟩)
        · exact Or.inl hacc
        · refine Or.inr ⟨e.2, ?_, hex⟩
          rw [show ((e.1, e.2) : String × List Dependency) = e from rfl]
          exact List.mem_cons_self _ _
        · exact Or.inr ⟨l, List.mem_cons_of_mem _ hl, hex⟩
      · rintro (hacc | ⟨l, hl, hex⟩)
        · exact Or.inl (Or.inl hacc)
        · rcases List.mem_cons.mp hl with heq | hl'
          · have hx : x = e.1 := congrArg Prod.fst heq
            have hl2 : l = e.2 := congrArg Prod.snd heq
            exact Or.inl (Or.inr ⟨hx, hl2 ▸ hex⟩)
          · exact Or.inr ⟨l, hl', hex⟩

theorem reachStep_nodup (edges : List (String × String)) :
    ∀ (r : List String), r.Nodup → (reachStep edges r).Nodup := by
  induction edges with
  | nil => intro r h; exact h
  | cons e es ih =>
      intro r h
      rw [reachStep_cons]
      apply ih
      by_cases hc : e.1 ∈ r
      · rw [if_pos hc]
        exact h.insert
      · rw [if_neg hc]
        exact h

theorem reachIter_nodup (edges : List (String × String)) (f : String) (k : Nat) :
    ((reachStep edges)^[k] [f]).Nodup := by
  induction k with
  | zero => simp
  | succ k ih =>
      rw [reachIter_succ]
      exact reachStep_nodup edges _ ih

theorem innerFold_nodup (f src : String) (l : List Dependency) :
    ∀ (acc : List String), acc.Nodup →
      (l.foldl (fun acc d => if d.targetFile = f then acc.insert src else acc) acc).Nodup := by
  induction l with
  | nil => intro acc h; exact h
  | cons d ds ih =>
      intro acc h
      rw [List.foldl_cons]
      apply ih
      by_cases hd : d.targetFile = f
      · rw [if_pos hd]; exact h.insert
      · rw [if_neg hd]; exact h

theorem findAffectedFiles_nodup (deps : List (String × List Dependency)) (f : String) :
    (findAffectedFiles deps f).Nodup := by
  unfold findAffectedFiles
  dsimp only
  have hs0 : (if f ∈ graphNodes deps then reachSet (edgesOf deps) f else []).Nodup := by
    by_cases hf : f ∈ graphNodes deps
    · rw [if_pos hf]
      exact reachIter_nodup _ _ _
    · rw [if_neg hf]
      exact List.nodup_nil
  revert hs0
  generalize (if f ∈ graphNodes deps then reachSet (edgesOf deps) f else []) = s0
  intro hs0
  induction deps generalizing s0 with
  | nil => exact hs0
  | cons e es ih =>
      rw [List.foldl_cons]
      exact ih _ (innerFold_nodup f e.1 e.2 s0 hs0)

theorem mem_findAffectedFiles_iff (deps : List (String × List Dependency))
    (f x : String) :
    x ∈ findAffectedFiles deps f ↔
      ((f ∈ graphNodes deps ∧
        Relation.ReflTransGen (fun a b => (a, b) ∈ edgesOf deps) f x) ∨
       ∃ l, (x, l) ∈ deps ∧ ∃ d ∈ l, d.targetFile = f) := by
  unfold findAffectedFiles
  dsimp only
  rw [mem_revFold]
  by_cases hf : f ∈ graphNodes deps
  · rw [if_pos hf, mem_reachSet_iff]
    constructor
    · rintro (h | h)
      · exact Or.inl ⟨hf, h⟩
      · exact Or.inr h
    · rintro (⟨_, h⟩ | h)
      · exact Or.inl h
      · exact Or.inr h
  · rw [if_neg hf]
    simp only [List.not_mem_nil, false_or]
    constructor
    · exact Or.inr
    · rintro (⟨hf', _⟩ | h)
      · exact absurd hf' hf
      · exact h

/-- C1 (amended): the affected set returned by `analyze_impact(f)` is exactly
the transitive descendants of `f` together with `f` itself whenever `f`
occurs in the dependency graph, united with the reverse-dependency sources;
when `f` occurs in no recorded dependency edge, it is the reverse-dependency
set alone — and then `f` itself need not be a member. -/
theorem analyze_impact_affected_iff (st : ImpactState) (f x : String) :
    x ∈ (analyzeImpact st f).1.affectedFiles ↔
      ((f ∈ graphNodes st.deps ∧ Reaches st.deps f x) ∨ RevDep st.deps f x) := by
  show x ∈ findAffectedFiles st.deps f ↔ _
  rw [mem_findAffectedFiles_iff]
  unfold Reaches RevDep edgeRel
  exact Iff.rfl

/-- C1 counterexample: for a file that occurs in no dependency edge, the
affected set is empty and in particular does not contain the changed file
itself. -/
theorem analyze_impact_misses_changed_file :
    (analyzeImpact
      { deps := [("a.md",
          [{ sourceFile := "a.md", targetFile := "b.md",
             depType := DependencyType.imports, lineNumber := some 1,
             context := "import b", strength := 1 }])],
        history := [] } "x.md").1.affectedFiles = [] ∧
    "x.md" ∉ (analyzeImpact
      { deps := [("a.md",
          [{ sourceFile := "a.md", targetFile := "b.md",
             depType := DependencyType.imports, lineNumber := some 1,
             context := "import b", strength := 1 }])],
        history := [] } "x.md").1.affectedFiles := by
  decide

/-- C3 counterexample: in the A→B (imports), B→C (reference) scenario with
plain documentation file names, `analyze_impact(B)` does return an affected
set containing A, B and C — but the impact level is Low, below the Medium
the claim demands (the `.md` basename earns no category bonus, so the score
is 2 + 0 + 1 = 3). -/
theorem scenario_plain_documentation_low :
    "a.md" ∈ (analyzeImpact (scenarioThree "a.md" "b.md" "c.md") "b.md").1.affectedFiles ∧
    "b.md" ∈ (analyzeImpact (scenarioThree "a.md" "b.md" "c.md") "b.md").1.affectedFiles ∧
    "c.md" ∈ (analyzeImpact (scenarioThree "a.md" "b.md" "c.md") "b.md").1.affectedFiles ∧
    (analyzeImpact (scenarioThree "a.md" "b.md" "c.md") "b.md").1.impactLevel
      = ImpactLevel.low ∧
    ImpactLevel.low.toNat < ImpactLevel.medium.toNat := by
  decide

/-- C3 (amended): in the three-file scenario (A imports B, B references C,
distinct names), `analyze_impact(B)` always returns an affected set
containing A, B and C, and its impact level is at least Medium exactly when
B's file category earns a positive bonus (an `adr`/`ddd`/`domain` name or a
`.py` code file); for a zero-bonus category (e.g. a plain `.md` document)
the level computed is Low. -/
theorem scenario_three_files_impact (A B C : String)
    (hAB : A ≠ B) (hAC : A ≠ C) (hBC : B ≠ C) :
    A ∈ (analyzeImpact (scenarioThree A B C) B).1.affectedFiles ∧
    B ∈ (analyzeImpact (scenarioThree A B C) B).1.affectedFiles ∧
    C ∈ (analyzeImpact (scenarioThree A B C) B).1.affectedFiles ∧
    (ImpactLevel.medium.toNat ≤ (analyzeImpact (scenarioThree A B C) B).1.impactLevel.toNat
      ↔ 1 ≤ fileTypeBonus (getFileType B)) := by
  have hE : edgesOf (scenarioThree A B C).deps = [(A, B), (B, C)] := rfl
  have hBnodes : B ∈ graphNodes (scenarioThree A B C).deps := by
    show B ∈ [A, B, B, C]
    simp
  have hmemA : A ∈ findAffectedFiles (scenarioThree A B C).deps B := by
    rw [mem_findAffectedFiles_iff]
    refine Or.inr
      ⟨[(⟨A, B, DependencyType.imports, some 1, "import", (1 : ℚ)⟩ : Dependency)],
        ?_, ?_⟩
    · simp [scenarioThree]
    · exact ⟨_, List.mem_singleton.mpr rfl, rfl⟩
  have hmemB : B ∈ findAffectedFiles (scenarioThree A B C).deps B := by
    rw [mem_findAffectedFiles_iff]
    exact Or.inl ⟨hBnodes, Relation.ReflTransGen.refl⟩
  have hmemC : C ∈ findAffectedFiles (scenarioThree A B C).deps B := by
    rw [mem_findAffectedFiles_iff]
    refine Or.inl ⟨hBnodes, Relation.ReflTransGen.single ?_⟩
    rw [hE]
    simp
  have hreach : ∀ x, Relation.ReflTransGen
      (fun a b => (a, b) ∈ edgesOf (scenarioThree A B C).deps) B x →
      x = B ∨ x = C := by
    intro x h
    induction h with
    | refl => exact Or.inl rfl
    | tail hab hbc ih =>
        rw [hE] at hbc
        simp only [List.mem_cons, List.not_mem_nil, or_false, Prod.mk.injEq] at hbc
        rcases hbc with ⟨rfl, rfl⟩ | ⟨rfl, rfl⟩
        · rcases ih with h' | h'
          · exact absurd h' hAB
          · exact absurd h' hAC
        · exact Or.inr rfl
  have hrev : ∀ x,
      (∃ l, (x, l) ∈ (scenarioThree A B C).deps ∧ ∃ d ∈ l, d.targetFile = B) →
      x = A := by
    rintro x ⟨l, hl, d, hd, ht⟩
    simp only [scenarioThree, List.mem_cons, List.not_mem_nil, or_false,
      Prod.mk.injEq] at hl
    rcases hl with ⟨rfl, rfl⟩ | ⟨rfl, rfl⟩
    · rfl
    · rcases List.mem_singleton.mp hd with rfl
      exact absurd ht (Ne.symm hBC)
  have hiff : ∀ x, x ∈ findAffectedFiles (scenarioThree A B C).deps B ↔
      (x = A ∨ x = B ∨ x = C) := by
    intro x
    constructor
    · intro hx
      rcases (mem_findAffectedFiles_iff _ _ _).mp hx with ⟨_, hr⟩ | hv
      · rcases hreach x hr with rfl | rfl
        · exact Or.inr (Or.inl rfl)
        · exact Or.inr (Or.inr rfl)
      · exact Or.inl (hrev x hv)
    · rintro (rfl | rfl | rfl)
      · exact hmemA
      · exact hmemB
      · exact hmemC
  have hnd := findAffectedFiles_nodup (scenarioThree A B C).deps B
  have hfin : (findAffectedFiles (scenarioThree A B C).deps B).toFinset
      = {A, B, C} := by
    ext x
    simp only [List.mem_toFinset, hiff x, Finset.mem_insert, Finset.mem_singleton]
  have hcard : ({A, B, C} : Finset String).card = 3 := by
    rw [Finset.card_insert_of_not_mem (by simp [hAB, hAC]),
        Finset.card_insert_of_not_mem (by simp [hBC]), Finset.card_singleton]
  have hlen : (findAffectedFiles (scenarioThree A B C).deps B).length = 3 := by
    have h := List.toFinset_card_of_nodup hnd
    rw [hfin, hcard] at h
    omega
  refine ⟨hmemA, hmemB, hmemC, ?_⟩
  show ImpactLevel.medium.toNat ≤ (calcImpactLevel (scenarioThree A B C).deps B
      (findAffectedFiles (scenarioThree A B C).deps B)).toNat ↔ _
  simp only [calcImpactLevel]
  rw [hlen]
  have hdep : lookupA (scenarioThree A B C).deps B =
      some [(⟨B, C, DependencyType.reference, some 1, "ref", (1 : ℚ)⟩ : Dependency)] := by
    show lookupA [(A, _), (B, _)] B = _
    rw [lookupA, if_neg hAB, lookupA, if_pos rfl]
  rw [hdep]
  have hb : fileTypeBonus (getFileType B) = 0 ∨ fileTypeBonus (getFileType B) = 1 ∨
      fileTypeBonus (getFileType B) = 2 ∨ fileTypeBonus (getFileType B) = 3 := by
    unfold fileTypeBonus
    split_ifs <;> simp
  rcases hb with hb | hb | hb | hb <;>
    rw [hb] <;>
      simp [affectedBucket, depBucket, levelOfScore, ImpactLevel.toNat]

/-- Witness for C3 (amended) with a code file as the changed artifact. -/
theorem scenario_three_files_impact_witness :
    (("a.md" : String) ≠ "b.py" ∧ ("a.md" : String) ≠ "c.md" ∧
      ("b.py" : String) ≠ "c.md") ∧
    ("a.md" ∈ (analyzeImpact (scenarioThree "a.md" "b.py" "c.md") "b.py").1.affectedFiles ∧
     "b.py" ∈ (analyzeImpact (scenarioThree "a.md" "b.py" "c.md") "b.py").1.affectedFiles ∧
     "c.md" ∈ (analyzeImpact (scenarioThree "a.md" "b.py" "c.md") "b.py").1.affectedFiles ∧
     (ImpactLevel.medium.toNat ≤
        (analyzeImpact (scenarioThree "a.md" "b.py" "c.md") "b.py").1.impactLevel.toNat
      ↔ 1 ≤ fileTypeBonus (getFileType "b.py"))) :=
  ⟨⟨by decide, by decide, by decide⟩,
    scenario_three_files_impact "a.md" "b.py" "c.md"
      (by decide) (by decide) (by decide)⟩

end Impact

end IAAssist
